import Mathlib

/-!
Verification of the Aoe4bot core: the chronological multi-profile game
multiplexer (`enumPlayerGames`, src/aoe4/api.js) and the session/window
win-rate aggregator (`getPlayerWinRate`, src/aoe4/handlers.js).

Modelling conventions:
* JS numbers that the code uses as integers (timestamps in milliseconds,
  second counts, profile ids) are modelled as `Int`/`Nat`.
* `game.started_at` is a date string in the source, always consumed through
  `Date.parse`; we model the parsed millisecond value directly as `Int`.
* JS truthiness is modelled explicitly: a number is truthy iff it is ≠ 0,
  an absent value (`null`/`undefined`) is falsy, an object or a nonempty
  string is truthy.  Fields that the code tests for truthiness are modelled
  with the matching sentinel (`0`) or with `Option`.
* The floating-point `Math.round(1000*w/(w+l))/10` is modelled over `ℚ`
  with `Math.round x = ⌊x + 1/2⌋` (JS rounds half toward +∞).
-/

namespace Aoe4

/-! ## Data model (spec §3) -/

/-- One participant of a game, as used by `getPlayerWinRate`:
`p.player.profile_id`, `p.player.civilization`, `p.player.result`.
The `result` is the raw string (`"win"`, `"loss"`, anything else is
an undetermined result). -/
structure Player where
  profile_id : Int
  civilization : String
  result : String
deriving DecidableEq, Repr

/-- A participant entry of a team: the source accesses members through
`entry.player`. -/
structure Slot where
  player : Player
deriving DecidableEq, Repr

/-- One game record.  `started_at` is the `Date.parse`d start time in
milliseconds; `duration` is in seconds with `0` standing for the JS-falsy
values (`0`/`undefined`) that mark an in-progress game. -/
structure Game where
  started_at : Int
  duration : Int
  map : String
  teams : List (List Slot)
deriving DecidableEq, Repr

instance : Inhabited Game := ⟨⟨0, 0, "", []⟩⟩

/-! ## Session/window aggregator (src/aoe4/handlers.js, getPlayerWinRate) -/

/-- The inputs of one `getPlayerWinRate` call: the subject profile ids,
the destructured `options`, and the wall clock `now = Date.now()` captured
at handlers.js:50 (milliseconds).  `opponent` holds the opponent's
`profile_id` when an opponent object was passed (an object is always
truthy).  `timespan`/`idletime` are in seconds as in the source. -/
structure WRCfg where
  playerProfileIds : List Int
  opponent : Option Int
  civ : Option String
  map : Option String
  idletime : Int
  timespan : Option Int
  includeTeamGames : Bool
  now : Int
deriving DecidableEq, Repr

/-- JS truthiness of the `timespan` option: present and nonzero
(handlers.js:59 `if (!timespan)`). -/
def tsTruthy : Option Int → Prop
  | some t => t ≠ 0
  | none => False

instance : DecidablePred tsTruthy := fun o => by
  cases o with
  | none => exact isFalse (fun h => h)
  | some t => exact inferInstanceAs (Decidable (t ≠ 0))

/-- JS truthiness of a string option (`civ`, `map`): present and nonempty. -/
def strTruthy : Option String → Prop
  | some s => s ≠ ""
  | none => False

instance : DecidablePred strTruthy := fun o => by
  cases o with
  | none => exact isFalse (fun h => h)
  | some s => exact inferInstanceAs (Decidable (s ≠ ""))

/-- handlers.js:79: the first entry of `team` whose profile id is among the
subject ids, projected to `.player`. -/
def teamPlayerOf (pids : List Int) (team : List Slot) : Option Player :=
  ((team.filter (fun p => pids.contains p.player.profile_id)).head?).map (·.player)

/-- handlers.js:80: the first entry of `team` whose profile id equals the
opponent's, projected to `.player`; `null` when no opponent was given. -/
def teamOpponentOf (opp : Option Int) (team : List Slot) : Option Player :=
  match opp with
  | some o => ((team.filter (fun p => p.player.profile_id == o)).head?).map (·.player)
  | none => none

/-- handlers.js:75-86: fold over the game's teams computing
`(playerState, opponentState)`.  A team containing the subject sets
`playerState`; otherwise a team containing the opponent sets
`opponentState`. -/
def findParticipants (pids : List Int) (opp : Option Int)
    (teams : List (List Slot)) : Option Player × Option Player :=
  teams.foldl
    (fun acc team =>
      match teamPlayerOf pids team with
      | some p => (some p, acc.2)
      | none =>
        match teamOpponentOf opp team with
        | some o => (acc.1, some o)
        | none => acc)
    (none, none)

/-- The mutable state of the aggregation loop (handlers.js:36-53):
the `stats` counters plus `lastgame`, `pendingGames`, `pendingGame`.
`last_game_at` is `0` (falsy) until first assigned, after which it holds an
always-truthy ISO string; we model it as `Option Int` of the end-time in
milliseconds. -/
structure WRState where
  games_count : Nat
  wins_count : Nat
  losses_count : Nat
  first_game_at : Int
  last_game_at : Option Int
  duration : Int
  lastgame : Int
  pendingGames : Nat
  pendingGame : Option Game
deriving DecidableEq, Repr

/-- Result of processing one game of the sequence: continue with the next
game, or break out of the `for await` loop. -/
inductive StepRes where
  | cont (st : WRState)
  | stop (st : WRState)
deriving DecidableEq, Repr

def StepRes.state : StepRes → WRState
  | .cont st => st
  | .stop st => st

def StepRes.isStop : StepRes → Prop
  | .cont _ => False
  | .stop _ => True

instance : DecidablePred StepRes.isStop := fun r => by
  cases r with
  | cont st => exact isFalse (fun h => h)
  | stop st => exact isTrue trivial

/-- The stopping rule of the loop (handlers.js:59-65): with a truthy
`timespan`, break when the game's age relative to `now` exceeds the window;
otherwise break when the gap from `lastgame` (when truthy) exceeds the idle
threshold. -/
def shouldBreak (cfg : WRCfg) (st : WRState) (g : Game) : Prop :=
  if tsTruthy cfg.timespan then
    cfg.now - g.started_at > cfg.timespan.getD 0 * 1000
  else
    st.lastgame ≠ 0 ∧ st.lastgame - g.started_at > cfg.idletime * 1000

instance (cfg : WRCfg) (st : WRState) (g : Game) : Decidable (shouldBreak cfg st g) := by
  unfold shouldBreak
  infer_instance

/-- handlers.js:67-129: the remainder of the loop body, reached when the
stopping rule did not break; every path of it `continue`s, so it is a total
state transformer. -/
def processGame (cfg : WRCfg) (st : WRState) (g : Game) : WRState :=
  let gametime := g.started_at
  -- handlers.js:67: lastgame updated before any content filter
  let st := { st with lastgame := gametime }
  -- handlers.js:70-73: team-size filter
  let numPlayers := (g.teams.map List.length).sum
  if numPlayers > 2 ∧ ¬cfg.includeTeamGames then st
  else
    -- handlers.js:75-94: participation matching
    match (findParticipants cfg.playerProfileIds cfg.opponent g.teams).1,
          (findParticipants cfg.playerProfileIds cfg.opponent g.teams).2 with
    | none, _ => st
    | some playerState, opponentState =>
      if cfg.opponent.isSome ∧ opponentState = none then st
      else
        -- handlers.js:96-108: pending (in-progress) games
        if g.duration = 0 then
          if gametime > cfg.now - 3 * 3600 * 1000 then
            { st with
              pendingGame := if st.pendingGame = none then some g else st.pendingGame,
              pendingGames := st.pendingGames + 1 }
          else st
        else
          -- handlers.js:110-116: civilization and map filters
          if strTruthy cfg.civ ∧ playerState.civilization ≠ cfg.civ.getD "" then st
          else if strTruthy cfg.map ∧ g.map ≠ cfg.map.getD "" then st
          else
            -- handlers.js:118-129: accumulation
            let st := if st.last_game_at = none
                      then { st with last_game_at := some (gametime + g.duration * 1000) }
                      else st
            let st := { st with
              first_game_at := g.started_at,
              games_count := st.games_count + 1,
              duration := st.duration + g.duration }
            if playerState.result = "win" then
              { st with wins_count := st.wins_count + 1 }
            else if playerState.result = "loss" then
              { st with losses_count := st.losses_count + 1 }
            else st

/-- The body of the `for await (const game of games)` loop,
handlers.js:55-130: break per the stopping rule, otherwise process the
game and continue. -/
def winRateStep (cfg : WRCfg) (st : WRState) (g : Game) : StepRes :=
  if shouldBreak cfg st g then .stop st
  else .cont (processGame cfg st g)

/-- The whole `for await` loop: fold `winRateStep` over the game sequence,
stopping early on `.stop`. -/
def winRateLoop (cfg : WRCfg) : WRState → List Game → WRState
  | st, [] => st
  | st, g :: gs =>
    match winRateStep cfg st g with
    | .stop st' => st'
    | .cont st' => winRateLoop cfg st' gs

/-- The `stats` object returned by `getPlayerWinRate` (only the numeric
payload; the echoed `player`/`opponent`/option fields carry no logic). -/
structure WinRateStats where
  games_count : Nat
  wins_count : Nat
  losses_count : Nat
  first_game_at : Int
  last_game_at : Option Int
  duration : Int
  win_rate : ℚ
  pending_games : Nat
  pending_game_started_at : Option Int
deriving DecidableEq, Repr

/-- JS `Math.round`: rounds half toward +∞. -/
def jsRound (q : ℚ) : Int := ⌊q + 1 / 2⌋

/-- The initial `stats`/loop state (handlers.js:36-53). -/
def initWRState : WRState :=
  { games_count := 0, wins_count := 0, losses_count := 0, first_game_at := 0,
    last_game_at := none, duration := 0, lastgame := 0, pendingGames := 0,
    pendingGame := none }

/-- `getPlayerWinRate` on the game sequence produced by the multiplexer
(handlers.js:23-142): run the loop, then attach the pending-game fields and
the derived `win_rate` (initialised to `100`, overwritten when
`losses_count` is truthy). -/
def getPlayerWinRate (cfg : WRCfg) (games : List Game) : WinRateStats :=
  let fin := winRateLoop cfg initWRState games
  { games_count := fin.games_count
    wins_count := fin.wins_count
    losses_count := fin.losses_count
    first_game_at := fin.first_game_at
    last_game_at := fin.last_game_at
    duration := fin.duration
    win_rate :=
      if fin.losses_count ≠ 0 then
        (jsRound ((1000 * fin.wins_count : ℚ) / ((fin.wins_count : ℚ) + (fin.losses_count : ℚ))) : ℚ) / 10
      else 100
    pending_games := fin.pendingGames
    pending_game_started_at := fin.pendingGame.map (·.started_at) }

/-! ## Chronological multiplexer (src/aoe4/api.js) -/

/-- A JS value as passed for a profile id: an (integer-valued) number or
some other value.  `Number.isInteger` holds exactly for the former;
truthiness follows JS (`0` and `""` are falsy). -/
inductive JVal where
  | jnum (n : Int)
  | jstr (s : String)
deriving DecidableEq, Repr

def JVal.isInteger : JVal → Prop
  | .jnum _ => True
  | .jstr _ => False

instance : DecidablePred JVal.isInteger := fun v => by
  cases v with
  | jnum n => exact isTrue trivial
  | jstr s => exact isFalse (fun h => h)

def JVal.truthy : JVal → Prop
  | .jnum n => n ≠ 0
  | .jstr s => s ≠ ""

instance : DecidablePred JVal.truthy := fun v => by
  cases v with
  | jnum n => exact inferInstanceAs (Decidable (n ≠ 0))
  | jstr s => exact inferInstanceAs (Decidable (s ≠ ""))

def JVal.toInt : JVal → Int
  | .jnum n => n
  | .jstr _ => 0

/-- The JSON payload of one successful
`/players/{id}/games?page=n` request, as consumed by the merge loop:
`games` (newest first), `offset` (games on strictly earlier pages),
`total_count`, and the echoed `page`. -/
structure PageData where
  games : List Game
  offset : Nat
  total_count : Nat
  page : Nat
deriving DecidableEq, Repr

/-- The fetch collaborator (`fetchAOE4World` behind `fetchPlayerGames`):
for a profile id, the effective `opponent_profile_id` and `since` filters,
and a 1-based page number it returns the parsed payload, or `none` for any
failure (network error, non-200, absent payload). -/
def FetchEnv : Type := Int → Option Int → Option Int → Nat → Option PageData

/-- The per-profile cursor state (api.js:189-193): the fetched payload with
`profile_id` and `index := 0` attached. -/
structure FetchState where
  profile_id : Int
  page : Nat
  offset : Nat
  total_count : Nat
  games : List Game
  index : Nat
deriving DecidableEq, Repr

/-- api.js:179-196 `fetchPlayerGames`: perform one page fetch; a failed
fetch propagates `null`. -/
def fetchPlayerGames (env : FetchEnv) (profileId : Int) (opp since : Option Int)
    (page : Nat) : Option FetchState :=
  (env profileId opp since page).map fun d =>
    { profile_id := profileId, page := d.page, offset := d.offset,
      total_count := d.total_count, games := d.games, index := 0 }

/-- Observable events of one `enumPlayerGames` run: a page request for the
state at position `pos` (with its profile id and the 1-based page), or a
game yielded while advancing the cursor at position `pos`.  The position
tag records which per-profile stream each event belongs to. -/
inductive Event where
  | fetch (pos : Nat) (profileId : Int) (page : Nat)
  | yld (pos : Nat) (g : Game)
deriving DecidableEq, Repr

/-- Result of a (fuel-bounded) `enumPlayerGames` run.
`invalid` is the `return null` taken on malformed arguments (api.js:201-202);
`typeError` is the TypeError raised when a `null` state is dereferenced
(`s.index` on a failed fetch); `done` carries the full event trace. -/
inductive EnumResult where
  | invalid
  | typeError
  | noFuel
  | done (trace : List Event)
deriving DecidableEq, Repr

/-- api.js:209-214: the page-refill pass of one `while` iteration.  Reading
`s.index` of a `null` state raises (`.error`); a state that has consumed its
page (`index ≥ games.length`) and is not exhausted
(`offset + index < total_count`) is replaced by the fetch of `page + 1`
(possibly `null`).  Returns the updated states and the fetch events issued;
`pos` is the position of the first state in the whole array. -/
def refill (env : FetchEnv) (opp since : Option Int) :
    List (Option FetchState) → Nat → Except Unit (List (Option FetchState) × List Event)
  | [], _ => .ok ([], [])
  | none :: _, _ => .error ()
  | some s :: rest, pos =>
    if s.index ≥ s.games.length ∧ s.offset + s.index < s.total_count then
      match refill env opp since rest (pos + 1) with
      | .error e => .error e
      | .ok (sts, evs) =>
        .ok (fetchPlayerGames env s.profile_id opp since (s.page + 1) :: sts,
             .fetch pos s.profile_id (s.page + 1) :: evs)
    else
      match refill env opp since rest (pos + 1) with
      | .error e => .error e
      | .ok (sts, evs) => .ok (some s :: sts, evs)

/-- The current game a state's cursor points at (`s.games[s.index]`); only
read under the guard `s.index < s.games.length`. -/
def curGame (s : FetchState) : Game := s.games.getD s.index default

/-- api.js:217-231: the `reduce` selecting the state whose current game has
the latest `started_at`.  A state whose page is consumed is skipped; a
`null` state raises.  `prev` is kept unless a strictly later timestamp is
found, so the first state attaining the maximum wins.  `pos` is the
position of the first remaining state. -/
def findFirst : List (Option FetchState) → Nat → Option (Nat × FetchState) →
    Except Unit (Option (Nat × FetchState))
  | [], _, prev => .ok prev
  | none :: _, _, _ => .error ()
  | some s :: rest, pos, prev =>
    if s.index ≥ s.games.length then findFirst rest (pos + 1) prev
    else
      match prev with
      | none => findFirst rest (pos + 1) (some (pos, s))
      | some (j, p) =>
        if (curGame p).started_at < (curGame s).started_at then
          findFirst rest (pos + 1) (some (pos, s))
        else
          findFirst rest (pos + 1) (some (j, p))

/-- api.js:207-241: the `while (true)` production loop, fuel-bounded.
Each iteration refills consumed pages, selects the latest current game,
terminates when none is left, otherwise yields it and advances that
state's cursor. -/
def enumLoop (env : FetchEnv) (opp since : Option Int) :
    Nat → List (Option FetchState) → List Event → EnumResult
  | 0, _, _ => .noFuel
  | fuel + 1, states, tr =>
    match refill env opp since states 0 with
    | .error _ => .typeError
    | .ok (states', evs) =>
      match findFirst states' 0 none with
      | .error _ => .typeError
      | .ok none => .done (tr ++ evs)
      | .ok (some (j, s)) =>
        enumLoop env opp since fuel
          (states'.set j (some { s with index := s.index + 1 }))
          ((tr ++ evs) ++ [.yld j (curGame s)])

/-- The `opponent_profile_id` actually sent to the server: included in the
request options only when truthy (api.js:181-183). -/
def effOpp (opp : Option JVal) : Option Int :=
  match opp with
  | some o => if o.truthy then some o.toInt else none
  | none => none

/-- The `since` actually sent to the server: included only when truthy
(api.js:184-186). -/
def effSince (since : Option Int) : Option Int :=
  match since with
  | some t => if t ≠ 0 then some t else none
  | none => none

/-- api.js:202: `opponentProfileId && !Number.isInteger(opponentProfileId)`. -/
def badOpp : Option JVal → Prop
  | some o => o.truthy ∧ ¬o.isInteger
  | none => False

instance : DecidablePred badOpp := fun o => by
  cases o with
  | none => exact isFalse (fun h => h)
  | some v => exact inferInstanceAs (Decidable (v.truthy ∧ ¬v.isInteger))

/-- api.js:198-242 `enumPlayerGames`: validate the arguments (the
`return null` paths yield `.invalid` before any fetch), fetch page 1 of
every profile, then run the production loop. -/
def enumPlayerGames (env : FetchEnv) (profileIds : List JVal) (opp : Option JVal)
    (since : Option Int) (fuel : Nat) : EnumResult :=
  if (profileIds.filter (fun p => ¬p.isInteger)).length ≠ 0 then .invalid
  else if badOpp opp then .invalid
  else
    let pids := profileIds.map JVal.toInt
    let states := pids.map fun p => fetchPlayerGames env p (effOpp opp) (effSince since) 1
    let initTrace := (List.range pids.length).map fun i =>
      Event.fetch i (pids.getD i 0) 1
    enumLoop env (effOpp opp) (effSince since) fuel states initTrace

/-- The games a trace yields for the stream at position `i`, in order. -/
def yieldsOf (tr : List Event) (i : Nat) : List Game :=
  tr.filterMap fun e =>
    match e with
    | .yld j g => if j = i then some g else none
    | .fetch _ _ _ => none

/-- All games a trace yields, in order: the output sequence of the
enumerator. -/
def allYields (tr : List Event) : List Game :=
  tr.filterMap fun e =>
    match e with
    | .yld _ g => some g
    | .fetch _ _ _ => none

/-! ## Shared concrete fixtures -/

/-- A 1v1 between subject profile 10 and profile 20. -/
def vsGame (ts dur : Int) (res oppRes : String) : Game :=
  { started_at := ts, duration := dur, map := "dry_arabia",
    teams := [[⟨⟨10, "english", res⟩⟩], [⟨⟨20, "french", oppRes⟩⟩]] }

/-- A fixed wall clock `now` in milliseconds. -/
def tNow : Int := 1700000000000

/-- A session-mode aggregation config for subject profile 10: no explicit
timespan, the default 4-hour idle gap, no filters. -/
def cfgSession : WRCfg :=
  { playerProfileIds := [10], opponent := none, civ := none, map := none,
    idletime := 4 * 3600, timespan := none, includeTeamGames := false,
    now := tNow }

/-- A minimal single-participant game owned by `pid`. -/
def sampleGame (pid ts : Int) : Game :=
  { started_at := ts, duration := 100, map := "m",
    teams := [[⟨⟨pid, "c", "win"⟩⟩]] }

/-- An environment where profile 1 has exactly one page `[sampleGame 1 100]`
and every other request (in particular every request for profile 2) fails. -/
def envFailB : FetchEnv := fun p _ _ n =>
  if p = 1 ∧ n = 1 then some ⟨[sampleGame 1 100], 0, 1, 1⟩ else none

/-! ## Claim theorems -/

/-- C2 (code evaluated at the failing input): with profiles `[1, 2]` where
every fetch for profile 2 fails (`fetchPlayerGames` yields no data) while
profile 1's single page succeeds, `enumPlayerGames` raises a TypeError by
dereferencing the `null` state (api.js:211 reads `s.index`), instead of
treating profile 2 as exhausted: no trace is produced, so the merged
sequence is not profile 1's sequence alone and an error is raised. -/
theorem c2_fetch_failure_raises :
    enumPlayerGames envFailB [JVal.jnum 1, JVal.jnum 2] none none 10 =
      EnumResult.typeError ∧
    ∀ tr : List Event,
      enumPlayerGames envFailB [JVal.jnum 1, JVal.jnum 2] none none 10 ≠
        EnumResult.done tr := by
  refine ⟨by decide, ?_⟩
  intro tr h
  rw [show enumPlayerGames envFailB [JVal.jnum 1, JVal.jnum 2] none none 10 =
      EnumResult.typeError from by decide] at h
  exact EnumResult.noConfusion h

/-- C8: if any element of `profileIds`, or a truthy `opponentProfileId`, is
not a valid integer, `enumPlayerGames` takes the `return null` path
(api.js:201-202): it yields no games and issues no fetch — the result is
`.invalid` (an empty run) for every fetch environment, so no network
activity can have occurred. -/
theorem c8_invalid_arguments_rejected_before_fetch
    (env : FetchEnv) (profileIds : List JVal) (opp : Option JVal)
    (since : Option Int) (fuel : Nat)
    (h : (∃ p ∈ profileIds, ¬p.isInteger) ∨ badOpp opp) :
    enumPlayerGames env profileIds opp since fuel = EnumResult.invalid ∧
    ∀ env' : FetchEnv,
      enumPlayerGames env profileIds opp since fuel =
        enumPlayerGames env' profileIds opp since fuel := by
  have main : ∀ e : FetchEnv,
      enumPlayerGames e profileIds opp since fuel = EnumResult.invalid := by
    intro e
    unfold enumPlayerGames
    split_ifs with h1 h2
    · rfl
    · rfl
    · exfalso
      rcases h with ⟨p, hp, hpi⟩ | hbad
      · apply h1
        intro hzero
        rw [List.length_eq_zero] at hzero
        have hmem : p ∈ profileIds.filter (fun q => ¬q.isInteger) :=
          List.mem_filter.mpr ⟨hp, by simpa using hpi⟩
        rw [hzero] at hmem
        exact absurd hmem (List.not_mem_nil p)
      · exact h2 hbad
  exact ⟨main env, fun env' => by rw [main env, main env']⟩

/-- C8 witness: a concrete non-integer profile id is rejected. -/
theorem c8_witness :
    ((∃ p ∈ [JVal.jnum 1, JVal.jstr "x"], ¬p.isInteger) ∨ badOpp none) ∧
    enumPlayerGames envFailB [JVal.jnum 1, JVal.jstr "x"] none none 10 =
      EnumResult.invalid :=
  ⟨Or.inl ⟨JVal.jstr "x", by decide, by decide⟩,
   (c8_invalid_arguments_rejected_before_fetch envFailB
     [JVal.jnum 1, JVal.jstr "x"] none none 10
     (Or.inl ⟨JVal.jstr "x", by decide, by decide⟩)).1⟩

/-- C5: the `win_rate` of any `getPlayerWinRate` result is `100` whenever
`losses_count = 0` (including zero games), and equals
`Math.round(1000 * wins / (wins + losses)) / 10` whenever `losses_count ≥ 1`;
in particular 7 wins, 3 losses give `70.0` and 1 win, 2 losses give `33.3`. -/
theorem c5_win_rate_formula :
    (∀ cfg games, (getPlayerWinRate cfg games).losses_count = 0 →
      (getPlayerWinRate cfg games).win_rate = 100) ∧
    (∀ cfg games, 1 ≤ (getPlayerWinRate cfg games).losses_count →
      (getPlayerWinRate cfg games).win_rate =
        ((jsRound ((1000 * (getPlayerWinRate cfg games).wins_count : ℚ) /
            (((getPlayerWinRate cfg games).wins_count : ℚ) +
             ((getPlayerWinRate cfg games).losses_count : ℚ))) : ℤ) : ℚ) / 10) ∧
    (∀ cfg games, (getPlayerWinRate cfg games).wins_count = 7 →
      (getPlayerWinRate cfg games).losses_count = 3 →
      (getPlayerWinRate cfg games).win_rate = 70) ∧
    (∀ cfg games, (getPlayerWinRate cfg games).wins_count = 1 →
      (getPlayerWinRate cfg games).losses_count = 2 →
      (getPlayerWinRate cfg games).win_rate = 333 / 10) := by
  have hproj : ∀ cfg games,
      (getPlayerWinRate cfg games).losses_count =
        (winRateLoop cfg initWRState games).losses_count ∧
      (getPlayerWinRate cfg games).wins_count =
        (winRateLoop cfg initWRState games).wins_count ∧
      (getPlayerWinRate cfg games).win_rate =
        (if (winRateLoop cfg initWRState games).losses_count ≠ 0 then
          ((jsRound ((1000 * (winRateLoop cfg initWRState games).wins_count : ℚ) /
              (((winRateLoop cfg initWRState games).wins_count : ℚ) +
               ((winRateLoop cfg initWRState games).losses_count : ℚ))) : ℤ) : ℚ) / 10
         else 100) := by
    intro cfg games
    refine ⟨rfl, rfl, rfl⟩
  refine ⟨?_, ?_, ?_, ?_⟩
  · intro cfg games h
    obtain ⟨hl, _, hw⟩ := hproj cfg games
    rw [hw, if_neg]
    rw [hl] at h
    simp [h]
  · intro cfg games h
    obtain ⟨hl, hwc, hw⟩ := hproj cfg games
    rw [hw, if_pos, hl, hwc]
    rw [hl] at h
    omega
  · intro cfg games h7 h3
    obtain ⟨hl, hwc, hw⟩ := hproj cfg games
    rw [hwc] at h7
    rw [hl] at h3
    rw [hw, if_pos (by omega), h7, h3]
    norm_num [jsRound]
  · intro cfg games h1 h2
    obtain ⟨hl, hwc, hw⟩ := hproj cfg games
    rw [hwc] at h1
    rw [hl] at h2
    rw [hw, if_pos (by omega), h1, h2]
    norm_num [jsRound]

/-- C5 witness: a session of 1 win and 2 losses has win rate `33.3`. -/
theorem c5_witness :
    1 ≤ (getPlayerWinRate cfgSession
          [vsGame tNow 1800 "win" "loss",
           vsGame (tNow - 600000) 1800 "loss" "win",
           vsGame (tNow - 1200000) 1800 "loss" "win"]).losses_count ∧
    (getPlayerWinRate cfgSession
          [vsGame tNow 1800 "win" "loss",
           vsGame (tNow - 600000) 1800 "loss" "win",
           vsGame (tNow - 1200000) 1800 "loss" "win"]).win_rate = 333 / 10 :=
  ⟨by decide,
   c5_win_rate_formula.2.2.2 cfgSession
     [vsGame tNow 1800 "win" "loss",
      vsGame (tNow - 600000) 1800 "loss" "win",
      vsGame (tNow - 1200000) 1800 "loss" "win"]
     (by decide) (by decide)⟩

/-! ## Loop-unfolding helpers -/

theorem winRateLoop_cons_cont {cfg : WRCfg} {st st' : WRState} {g : Game}
    {gs : List Game} (h : winRateStep cfg st g = .cont st') :
    winRateLoop cfg st (g :: gs) = winRateLoop cfg st' gs := by
  simp [winRateLoop, h]

theorem winRateLoop_cons_stop {cfg : WRCfg} {st st' : WRState} {g : Game}
    {gs : List Game} (h : winRateStep cfg st g = .stop st') :
    winRateLoop cfg st (g :: gs) = st' := by
  simp [winRateLoop, h]

theorem shouldBreak_session {cfg : WRCfg} {st : WRState} {g : Game}
    (h : ¬tsTruthy cfg.timespan) :
    shouldBreak cfg st g ↔
      st.lastgame ≠ 0 ∧ st.lastgame - g.started_at > cfg.idletime * 1000 := by
  unfold shouldBreak
  rw [if_neg h]

theorem shouldBreak_window {cfg : WRCfg} {st : WRState} {g : Game}
    (h : tsTruthy cfg.timespan) :
    shouldBreak cfg st g ↔
      cfg.now - g.started_at > cfg.timespan.getD 0 * 1000 := by
  unfold shouldBreak
  rw [if_pos h]

theorem winRateStep_isStop_iff (cfg : WRCfg) (st : WRState) (g : Game) :
    (winRateStep cfg st g).isStop ↔ shouldBreak cfg st g := by
  unfold winRateStep
  by_cases hb : shouldBreak cfg st g
  · rw [if_pos hb]
    simpa [StepRes.isStop] using hb
  · rw [if_neg hb]
    simpa [StepRes.isStop] using hb

/-- C3: in session mode (no truthy timespan) the loop stops exactly at the
first game whose gap to `lastgame` exceeds `idletime` seconds; `lastgame` is
updated by every processed (non-breaking) game regardless of any later
filter, team-size included; and on games at `T`, `T−1h`, `T−6h` with a
4-hour idle gap exactly the first two games are consumed, whatever follows:
`games_count = 2`. -/
theorem c3_session_gap_stop :
    (∀ cfg st g, (processGame cfg st g).lastgame = g.started_at) ∧
    (∀ cfg st g, ¬tsTruthy cfg.timespan →
      ((winRateStep cfg st g).isStop ↔
        st.lastgame ≠ 0 ∧ st.lastgame - g.started_at > cfg.idletime * 1000)) ∧
    (∀ rest : List Game,
      (getPlayerWinRate cfgSession
        (vsGame tNow 1800 "win" "loss" ::
         vsGame (tNow - 3600000) 1800 "loss" "win" ::
         vsGame (tNow - 6 * 3600000) 1800 "win" "loss" :: rest)).games_count = 2) := by
  refine ⟨?_, ?_, ?_⟩
  · intro cfg st g
    unfold processGame
    dsimp only
    repeat' split
    all_goals rfl
  · intro cfg st g hts
    rw [winRateStep_isStop_iff, shouldBreak_session hts]
  · intro rest
    have e1 : winRateStep cfgSession initWRState (vsGame tNow 1800 "win" "loss") =
        .cont (processGame cfgSession initWRState (vsGame tNow 1800 "win" "loss")) := by
      unfold winRateStep
      rw [if_neg (by decide)]
    have e2 : winRateStep cfgSession
        (processGame cfgSession initWRState (vsGame tNow 1800 "win" "loss"))
        (vsGame (tNow - 3600000) 1800 "loss" "win") =
        .cont (processGame cfgSession
          (processGame cfgSession initWRState (vsGame tNow 1800 "win" "loss"))
          (vsGame (tNow - 3600000) 1800 "loss" "win")) := by
      unfold winRateStep
      rw [if_neg (by decide)]
    have e3 : winRateStep cfgSession
        (processGame cfgSession
          (processGame cfgSession initWRState (vsGame tNow 1800 "win" "loss"))
          (vsGame (tNow - 3600000) 1800 "loss" "win"))
        (vsGame (tNow - 6 * 3600000) 1800 "win" "loss") =
        .stop (processGame cfgSession
          (processGame cfgSession initWRState (vsGame tNow 1800 "win" "loss"))
          (vsGame (tNow - 3600000) 1800 "loss" "win")) := by
      unfold winRateStep
      rw [if_pos (by decide)]
    show (getPlayerWinRate cfgSession
      (vsGame tNow 1800 "win" "loss" ::
       vsGame (tNow - 3600000) 1800 "loss" "win" ::
       vsGame (tNow - 6 * 3600000) 1800 "win" "loss" :: rest)).games_count = 2
    unfold getPlayerWinRate
    rw [winRateLoop_cons_cont e1, winRateLoop_cons_cont e2, winRateLoop_cons_stop e3]
    decide

/-- C3 witness: the session stopping rule applied at a concrete state. -/
theorem c3_witness :
    (¬tsTruthy cfgSession.timespan) ∧
    ((winRateStep cfgSession initWRState (vsGame tNow 1800 "win" "loss")).isStop ↔
      initWRState.lastgame ≠ 0 ∧
      initWRState.lastgame - (vsGame tNow 1800 "win" "loss").started_at >
        cfgSession.idletime * 1000) :=
  ⟨by decide,
   c3_session_gap_stop.2.1 cfgSession initWRState (vsGame tNow 1800 "win" "loss")
     (by decide)⟩

/-- An explicit 24-hour-window config over the same subject. -/
def cfgWindow : WRCfg := { cfgSession with timespan := some (24 * 3600) }

/-- C4: with a truthy timespan the loop stops exactly at the first game
older than the window relative to `now`, independently of the inter-game
gaps (the criterion does not read `lastgame`); with a 24-hour window and
`now = T`, a game at `T−30h` is excluded and one at `T−1h` is included. -/
theorem c4_window_stop :
    (∀ cfg st g, tsTruthy cfg.timespan →
      ((winRateStep cfg st g).isStop ↔
        cfg.now - g.started_at > cfg.timespan.getD 0 * 1000)) ∧
    (getPlayerWinRate cfgWindow
      [vsGame (tNow - 3600000) 1800 "win" "loss",
       vsGame (tNow - 30 * 3600000) 1800 "loss" "win"]).games_count = 1 ∧
    getPlayerWinRate cfgWindow
      [vsGame (tNow - 3600000) 1800 "win" "loss",
       vsGame (tNow - 30 * 3600000) 1800 "loss" "win"] =
      getPlayerWinRate cfgWindow [vsGame (tNow - 3600000) 1800 "win" "loss"] := by
  refine ⟨?_, by decide, by decide⟩
  intro cfg st g hts
  rw [winRateStep_isStop_iff, shouldBreak_window hts]

/-- C4 witness: the window stopping rule applied at a concrete state. -/
theorem c4_witness :
    tsTruthy cfgWindow.timespan ∧
    ((winRateStep cfgWindow initWRState
        (vsGame (tNow - 30 * 3600000) 1800 "loss" "win")).isStop ↔
      cfgWindow.now - (vsGame (tNow - 30 * 3600000) 1800 "loss" "win").started_at >
        cfgWindow.timespan.getD 0 * 1000) :=
  ⟨by decide,
   c4_window_stop.1 cfgWindow initWRState
     (vsGame (tNow - 30 * 3600000) 1800 "loss" "win") (by decide)⟩

/-! ## Step-shape helpers -/

theorem winRateStep_stop_eq {cfg : WRCfg} {st st' : WRState} {g : Game}
    (h : winRateStep cfg st g = .stop st') : st' = st := by
  unfold winRateStep at h
  split at h
  · cases h
    rfl
  · cases h

theorem winRateStep_cont_eq {cfg : WRCfg} {st st' : WRState} {g : Game}
    (h : winRateStep cfg st g = .cont st') : st' = processGame cfg st g := by
  unfold winRateStep at h
  split at h
  · cases h
  · cases h
    rfl

theorem processGame_counts_le {cfg : WRCfg} {st : WRState} {g : Game}
    (h : st.wins_count + st.losses_count ≤ st.games_count) :
    (processGame cfg st g).wins_count + (processGame cfg st g).losses_count ≤
      (processGame cfg st g).games_count := by
  unfold processGame
  dsimp only
  repeat' split
  all_goals dsimp only
  all_goals omega

theorem winRateLoop_counts_le (cfg : WRCfg) :
    ∀ (games : List Game) (st : WRState),
      st.wins_count + st.losses_count ≤ st.games_count →
      (winRateLoop cfg st games).wins_count + (winRateLoop cfg st games).losses_count ≤
        (winRateLoop cfg st games).games_count := by
  intro games
  induction games with
  | nil => intro st h; exact h
  | cons g gs ih =>
    intro st h
    rcases hstep : winRateStep cfg st g with st' | st'
    · rw [winRateLoop_cons_cont hstep]
      exact ih _ (by rw [winRateStep_cont_eq hstep]; exact processGame_counts_le h)
    · rw [winRateLoop_cons_stop hstep, winRateStep_stop_eq hstep]
      exact h

/-- C10: every `WinRateStats` satisfies
`wins_count + losses_count ≤ games_count`; a retained completed game whose
subject result is neither `"win"` nor `"loss"` (identified below by its
incrementing `games_count`) adds its duration and increments neither
counter. -/
theorem c10_wins_losses_le_games :
    (∀ cfg games,
      (getPlayerWinRate cfg games).wins_count +
        (getPlayerWinRate cfg games).losses_count ≤
        (getPlayerWinRate cfg games).games_count) ∧
    (∀ cfg st g p,
      ¬((g.teams.map List.length).sum > 2 ∧ ¬cfg.includeTeamGames) →
      (findParticipants cfg.playerProfileIds cfg.opponent g.teams).1 = some p →
      ¬(cfg.opponent.isSome ∧
          (findParticipants cfg.playerProfileIds cfg.opponent g.teams).2 = none) →
      g.duration ≠ 0 →
      ¬(strTruthy cfg.civ ∧ p.civilization ≠ cfg.civ.getD "") →
      ¬(strTruthy cfg.map ∧ g.map ≠ cfg.map.getD "") →
      p.result ≠ "win" → p.result ≠ "loss" →
      (processGame cfg st g).games_count = st.games_count + 1 ∧
      (processGame cfg st g).duration = st.duration + g.duration ∧
      (processGame cfg st g).wins_count = st.wins_count ∧
      (processGame cfg st g).losses_count = st.losses_count) := by
  constructor
  · intro cfg games
    exact winRateLoop_counts_le cfg games initWRState (by decide)
  · intro cfg st g p hteam hp hopp hdur hciv hmap hw hl
    unfold processGame
    dsimp only
    rw [hp]
    dsimp only
    rw [if_neg hteam, if_neg hopp, if_neg hdur, if_neg hciv, if_neg hmap,
      if_neg hw, if_neg hl]
    split
    all_goals simp

/-- C10 witness: an undetermined-result completed game counts toward
`games_count` and `duration` only. -/
theorem c10_witness :
    (findParticipants cfgSession.playerProfileIds cfgSession.opponent
        (vsGame tNow 1800 "unknown" "unknown").teams).1 =
      some ⟨10, "english", "unknown"⟩ ∧
    (processGame cfgSession initWRState
        (vsGame tNow 1800 "unknown" "unknown")).games_count =
      initWRState.games_count + 1 ∧
    (processGame cfgSession initWRState
        (vsGame tNow 1800 "unknown" "unknown")).duration =
      initWRState.duration + (vsGame tNow 1800 "unknown" "unknown").duration ∧
    (processGame cfgSession initWRState
        (vsGame tNow 1800 "unknown" "unknown")).wins_count =
      initWRState.wins_count ∧
    (processGame cfgSession initWRState
        (vsGame tNow 1800 "unknown" "unknown")).losses_count =
      initWRState.losses_count :=
  ⟨by decide,
   c10_wins_losses_le_games.2 cfgSession initWRState
     (vsGame tNow 1800 "unknown" "unknown") ⟨10, "english", "unknown"⟩
     (by decide) (by decide) (by decide) (by decide) (by decide) (by decide)
     (by decide) (by decide)⟩

/-! ## Pending-game bookkeeping (C6) -/

/-- handlers.js:70-73: the game is skipped by the team-size filter. -/
def sizeSkips (cfg : WRCfg) (g : Game) : Prop :=
  (g.teams.map List.length).sum > 2 ∧ ¬cfg.includeTeamGames

instance (cfg : WRCfg) (g : Game) : Decidable (sizeSkips cfg g) := by
  unfold sizeSkips
  infer_instance

/-- handlers.js:88-94: the subject was found, and the opponent (when
specified) was found on another team. -/
def participationOk (cfg : WRCfg) (g : Game) : Prop :=
  (findParticipants cfg.playerProfileIds cfg.opponent g.teams).1.isSome ∧
  ¬(cfg.opponent.isSome ∧
      (findParticipants cfg.playerProfileIds cfg.opponent g.teams).2 = none)

instance (cfg : WRCfg) (g : Game) : Decidable (participationOk cfg g) := by
  unfold participationOk
  infer_instance

/-- A game that survives both the team-size filter and participation
matching, i.e. reaches the `!game.duration` check of handlers.js:97. -/
def reachesDurationCheck (cfg : WRCfg) (g : Game) : Prop :=
  ¬sizeSkips cfg g ∧ participationOk cfg g

instance (cfg : WRCfg) (g : Game) : Decidable (reachesDurationCheck cfg g) := by
  unfold reachesDurationCheck
  infer_instance

/-- A retained in-progress game inside the 3-hour cutoff: exactly the games
counted by `pendingGames` (handlers.js:97-105). -/
def trackedPending (cfg : WRCfg) (g : Game) : Prop :=
  reachesDurationCheck cfg g ∧ g.duration = 0 ∧
  g.started_at > cfg.now - 3 * 3600 * 1000

instance (cfg : WRCfg) (g : Game) : Decidable (trackedPending cfg g) := by
  unfold trackedPending
  infer_instance

theorem processGame_pending (cfg : WRCfg) (st : WRState) (g : Game) :
    (processGame cfg st g).pendingGames =
      st.pendingGames + (if trackedPending cfg g then 1 else 0) ∧
    (processGame cfg st g).pendingGame =
      (if trackedPending cfg g ∧ st.pendingGame = none then some g
       else st.pendingGame) := by
  unfold processGame
  dsimp only
  repeat' split
  all_goals
    simp_all [trackedPending, reachesDurationCheck, participationOk, sizeSkips]
  all_goals omega

theorem winRateLoop_pending (cfg : WRCfg) :
    ∀ (games : List Game) (st : WRState),
      ∃ p s, games = p ++ s ∧
        (winRateLoop cfg st games).pendingGames =
          st.pendingGames + (p.filter (fun x => trackedPending cfg x)).length ∧
        (winRateLoop cfg st games).pendingGame =
          (if st.pendingGame = none then p.find? (fun x => trackedPending cfg x)
           else st.pendingGame) := by
  intro games
  induction games with
  | nil =>
    intro st
    refine ⟨[], [], rfl, by simp [winRateLoop], ?_⟩
    by_cases h : st.pendingGame = none
    · simp [winRateLoop, h]
    · simp [winRateLoop, h]
  | cons g gs ih =>
    intro st
    rcases hstep : winRateStep cfg st g with st' | st'
    · obtain ⟨p', s', heq, h1, h2⟩ := ih st'
      refine ⟨g :: p', s', by rw [heq, List.cons_append], ?_, ?_⟩
      · rw [winRateLoop_cons_cont hstep, h1, winRateStep_cont_eq hstep,
          (processGame_pending cfg st g).1]
        by_cases ht : trackedPending cfg g
        · simp [ht, List.filter_cons]
          omega
        · simp [ht, List.filter_cons]
      · rw [winRateLoop_cons_cont hstep, h2, winRateStep_cont_eq hstep,
          (processGame_pending cfg st g).2]
        by_cases hpg : st.pendingGame = none
        · by_cases ht : trackedPending cfg g
          · simp [hpg, ht, List.find?_cons]
          · simp [hpg, ht, List.find?_cons]
        · simp [hpg]
    · refine ⟨[], g :: gs, rfl, ?_, ?_⟩
      · rw [winRateLoop_cons_stop hstep, winRateStep_stop_eq hstep]
        simp
      · rw [winRateLoop_cons_stop hstep, winRateStep_stop_eq hstep]
        by_cases h : st.pendingGame = none
        · simp [h]
        · simp [h]

/-- C6: pending-game accounting.  (1) For every run there is a consumed
front `p` of the input such that `pending_games` counts exactly the
retained in-progress games of `p` started within the last 3 hours of `now`,
and `pending_game_started_at` is the start time of the first such game in
newest-first order.  (2) A retained in-progress game leaves every win/loss
counter and the duration untouched, increments `pending_games` iff it is
inside the 3-hour cutoff, and records itself only if no pending game was
recorded yet.  (3) For an in-progress game the civilization/map filters
never apply: the step is independent of them. -/
theorem c6_pending_games :
    (∀ cfg games, ∃ p s, games = p ++ s ∧
      (getPlayerWinRate cfg games).pending_games =
        (p.filter (fun x => trackedPending cfg x)).length ∧
      (getPlayerWinRate cfg games).pending_game_started_at =
        (p.find? (fun x => trackedPending cfg x)).map (·.started_at)) ∧
    (∀ cfg st g, reachesDurationCheck cfg g → g.duration = 0 →
      (processGame cfg st g).games_count = st.games_count ∧
      (processGame cfg st g).wins_count = st.wins_count ∧
      (processGame cfg st g).losses_count = st.losses_count ∧
      (processGame cfg st g).duration = st.duration ∧
      (processGame cfg st g).pendingGames =
        st.pendingGames +
          (if g.started_at > cfg.now - 3 * 3600 * 1000 then 1 else 0) ∧
      (processGame cfg st g).pendingGame =
        (if g.started_at > cfg.now - 3 * 3600 * 1000 ∧ st.pendingGame = none
         then some g else st.pendingGame)) ∧
    (∀ cfg st g c m, g.duration = 0 →
      winRateStep { cfg with civ := c, map := m } st g = winRateStep cfg st g) := by
  refine ⟨?_, ?_, ?_⟩
  · intro cfg games
    obtain ⟨p, s, heq, h1, h2⟩ := winRateLoop_pending cfg games initWRState
    refine ⟨p, s, heq, ?_, ?_⟩
    · show (winRateLoop cfg initWRState games).pendingGames = _
      rw [h1]
      simp [initWRState]
    · show ((winRateLoop cfg initWRState games).pendingGame.map (·.started_at)) = _
      rw [h2]
      simp [initWRState]
  · intro cfg st g hreach hdur
    obtain ⟨hnsize, hpart⟩ := hreach
    obtain ⟨hfound, hopp⟩ := hpart
    rcases hps : (findParticipants cfg.playerProfileIds cfg.opponent g.teams).1 with _ | ps
    · rw [hps] at hfound
      cases hfound
    · unfold processGame
      dsimp only
      rw [hps]
      dsimp only
      rw [if_neg (by unfold sizeSkips at hnsize; exact hnsize), if_neg hopp,
        if_pos hdur]
      by_cases h3 : g.started_at > cfg.now - 3 * 3600 * 1000
      · rw [if_pos h3]
        have h3i : cfg.now - 10800000 < g.started_at := by omega
        by_cases hpg : st.pendingGame = none
        · simp [h3i, hpg]
        · simp [h3i, hpg]
      · rw [if_neg h3]
        have h3i : ¬cfg.now - 10800000 < g.started_at := by omega
        simp [h3i]
  · intro cfg st g c m hdur
    have hpg : processGame { cfg with civ := c, map := m } st g =
        processGame cfg st g := by
      unfold processGame
      dsimp only
      repeat' split
      all_goals rfl
    have hsb : shouldBreak { cfg with civ := c, map := m } st g =
        shouldBreak cfg st g := rfl
    unfold winRateStep
    by_cases hb : shouldBreak cfg st g
    · rw [if_pos (show shouldBreak { cfg with civ := c, map := m } st g from
        hsb ▸ hb), if_pos hb]
    · rw [if_neg (show ¬shouldBreak { cfg with civ := c, map := m } st g from
        hsb ▸ hb), if_neg hb, hpg]

/-- C6 witness: an in-progress game started 30 minutes ago is tracked as
pending, with the counters untouched. -/
theorem c6_witness :
    reachesDurationCheck cfgSession (vsGame (tNow - 1800000) 0 "" "") ∧
    (vsGame (tNow - 1800000) 0 "" "").duration = 0 ∧
    ((processGame cfgSession initWRState
        (vsGame (tNow - 1800000) 0 "" "")).games_count =
          initWRState.games_count ∧
     (processGame cfgSession initWRState
        (vsGame (tNow - 1800000) 0 "" "")).wins_count =
          initWRState.wins_count ∧
     (processGame cfgSession initWRState
        (vsGame (tNow - 1800000) 0 "" "")).losses_count =
          initWRState.losses_count ∧
     (processGame cfgSession initWRState
        (vsGame (tNow - 1800000) 0 "" "")).duration =
          initWRState.duration ∧
     (processGame cfgSession initWRState
        (vsGame (tNow - 1800000) 0 "" "")).pendingGames =
          initWRState.pendingGames +
            (if (vsGame (tNow - 1800000) 0 "" "").started_at >
                cfgSession.now - 3 * 3600 * 1000 then 1 else 0) ∧
     (processGame cfgSession initWRState
        (vsGame (tNow - 1800000) 0 "" "")).pendingGame =
          (if (vsGame (tNow - 1800000) 0 "" "").started_at >
                cfgSession.now - 3 * 3600 * 1000 ∧
              initWRState.pendingGame = none
           then some (vsGame (tNow - 1800000) 0 "" "")
           else initWRState.pendingGame)) :=
  ⟨by decide, by decide,
   c6_pending_games.2.1 cfgSession initWRState (vsGame (tNow - 1800000) 0 "" "")
     (by decide) (by decide)⟩

/-! ## The merge step's selection (C9) -/

/-- The invariant of the `reduce` accumulator after scanning the first `m`
states: `none` means no state with an unconsumed game was seen; otherwise
the accumulator holds the first state attaining the maximum current
`started_at` among the scanned ones. -/
def ScanOK (states0 : List (Option FetchState)) (m : Nat)
    (acc : Option (Nat × FetchState)) : Prop :=
  (acc = none → ∀ k s, k < m → states0.getD k none = some s →
    ¬s.index < s.games.length) ∧
  (∀ j t, acc = some (j, t) → j < m ∧ states0.getD j none = some t ∧
    t.index < t.games.length ∧
    ∀ k s, k < m → states0.getD k none = some s → s.index < s.games.length →
      (curGame s).started_at ≤ (curGame t).started_at ∧
      ((curGame s).started_at = (curGame t).started_at → j ≤ k))

theorem findFirst_go_spec (states0 : List (Option FetchState))
    (hall : ∀ k, k < states0.length → states0.getD k none ≠ none) :
    ∀ (n pos : Nat) (prev : Option (Nat × FetchState)),
      states0.length - pos = n → pos ≤ states0.length → ScanOK states0 pos prev →
      ∃ r, findFirst (states0.drop pos) pos prev = .ok r ∧
        ScanOK states0 states0.length r := by
  intro n
  induction n with
  | zero =>
    intro pos prev hn hpos hscan
    have hpe : pos = states0.length := by omega
    subst hpe
    rw [List.drop_length]
    exact ⟨prev, rfl, hscan⟩
  | succ n ih =>
    intro pos prev hn hpos hscan
    have hlt : pos < states0.length := by omega
    have hdrop : states0.drop pos = states0.getD pos none :: states0.drop (pos + 1) := by
      rw [List.getD_eq_getElem states0 none hlt]
      exact List.drop_eq_getElem_cons hlt
    obtain ⟨s, hs⟩ : ∃ s, states0.getD pos none = some s := by
      rcases h : states0.getD pos none with _ | s
      · exact absurd h (hall pos hlt)
      · exact ⟨s, rfl⟩
    rw [hdrop, hs]
    unfold findFirst
    by_cases hact : s.index ≥ s.games.length
    · rw [if_pos hact]
      refine ih (pos + 1) prev (by omega) (by omega) ⟨?_, ?_⟩
      · intro hacc k t hk ht
        rcases Nat.lt_succ_iff_lt_or_eq.mp hk with hk' | hk'
        · exact hscan.1 hacc k t hk' ht
        · subst hk'
          rw [hs] at ht
          cases ht
          omega
      · intro j t hacc
        obtain ⟨hj, hjt, hjact, hmax⟩ := hscan.2 j t hacc
        refine ⟨by omega, hjt, hjact, ?_⟩
        intro k u hk hu hua
        rcases Nat.lt_succ_iff_lt_or_eq.mp hk with hk' | hk'
        · exact hmax k u hk' hu hua
        · subst hk'
          rw [hs] at hu
          cases hu
          omega
    · rw [if_neg hact]
      have hact' : s.index < s.games.length := by omega
      rcases prev with _ | ⟨j, p⟩
      · refine ih (pos + 1) (some (pos, s)) (by omega) (by omega) ⟨?_, ?_⟩
        · intro hacc
          cases hacc
        · intro j t hacc
          cases hacc
          refine ⟨by omega, hs, hact', ?_⟩
          intro k u hk hu hua
          rcases Nat.lt_succ_iff_lt_or_eq.mp hk with hk' | hk'
          · exact absurd hua (hscan.1 rfl k u hk' hu)
          · subst hk'
            rw [hs] at hu
            cases hu
            exact ⟨le_refl _, fun _ => le_refl _⟩
      · obtain ⟨hj, hjt, hjact, hmax⟩ := hscan.2 j p rfl
        dsimp only
        by_cases hcmp : (curGame p).started_at < (curGame s).started_at
        · rw [if_pos hcmp]
          refine ih (pos + 1) (some (pos, s)) (by omega) (by omega) ⟨?_, ?_⟩
          · intro hacc
            cases hacc
          · intro j' t hacc
            cases hacc
            refine ⟨by omega, hs, hact', ?_⟩
            intro k u hk hu hua
            rcases Nat.lt_succ_iff_lt_or_eq.mp hk with hk' | hk'
            · have := (hmax k u hk' hu hua).1
              exact ⟨by omega, fun he => by omega⟩
            · subst hk'
              rw [hs] at hu
              cases hu
              exact ⟨le_refl _, fun _ => le_refl _⟩
        · rw [if_neg hcmp]
          refine ih (pos + 1) (some (j, p)) (by omega) (by omega) ⟨?_, ?_⟩
          · intro hacc
            cases hacc
          · intro j' t hacc
            cases hacc
            refine ⟨by omega, hjt, hjact, ?_⟩
            intro k u hk hu hua
            rcases Nat.lt_succ_iff_lt_or_eq.mp hk with hk' | hk'
            · exact hmax k u hk' hu hua
            · subst hk'
              rw [hs] at hu
              cases hu
              exact ⟨by omega, fun _ => by omega⟩

/-- C9: in every merge step (the `reduce` of api.js:217-231 over non-null
states), the selected state holds an unconsumed game whose `started_at` is
maximal, and any other state tying exactly on `started_at` has a larger
position: the yielded game comes from the profile occurring earliest in
`profileIds` order, because the `reduce` keeps the earlier state unless a
strictly later timestamp is found. -/
theorem c9_tie_break_earliest_profile (states : List (Option FetchState))
    (hall : ∀ k, k < states.length → states.getD k none ≠ none)
    (j : Nat) (t : FetchState)
    (hr : findFirst states 0 none = .ok (some (j, t))) :
    states.getD j none = some t ∧ t.index < t.games.length ∧
    ∀ k s, k < states.length → states.getD k none = some s →
      s.index < s.games.length →
      (curGame s).started_at ≤ (curGame t).started_at ∧
      ((curGame s).started_at = (curGame t).started_at → j ≤ k) := by
  obtain ⟨r, hrun, hscan⟩ := findFirst_go_spec states hall states.length 0 none
    (by omega) (by omega) ⟨fun _ k s hk => by omega, fun j' t' h => by cases h⟩
  rw [List.drop_zero] at hrun
  rw [hrun] at hr
  cases hr
  obtain ⟨_, hjt, hact, hmax⟩ := hscan.2 j t rfl
  exact ⟨hjt, hact, hmax⟩

/-- C9 witness: two states with exactly equal current timestamps; the
state at position 0 is selected. -/
theorem c9_witness :
    (∀ k, k < ([some ⟨1, 1, 0, 1, [sampleGame 1 100], 0⟩,
                some ⟨2, 1, 0, 1, [sampleGame 2 100], 0⟩] :
        List (Option FetchState)).length →
      ([some ⟨1, 1, 0, 1, [sampleGame 1 100], 0⟩,
        some ⟨2, 1, 0, 1, [sampleGame 2 100], 0⟩] :
        List (Option FetchState)).getD k none ≠ none) ∧
    ([some ⟨1, 1, 0, 1, [sampleGame 1 100], 0⟩,
      some ⟨2, 1, 0, 1, [sampleGame 2 100], 0⟩] :
        List (Option FetchState)).getD 0 none =
      some ⟨1, 1, 0, 1, [sampleGame 1 100], 0⟩ ∧
    ∀ k s, k < ([some ⟨1, 1, 0, 1, [sampleGame 1 100], 0⟩,
                 some ⟨2, 1, 0, 1, [sampleGame 2 100], 0⟩] :
        List (Option FetchState)).length →
      ([some ⟨1, 1, 0, 1, [sampleGame 1 100], 0⟩,
        some ⟨2, 1, 0, 1, [sampleGame 2 100], 0⟩] :
        List (Option FetchState)).getD k none = some s →
      s.index < s.games.length →
      (curGame s).started_at ≤ (curGame ⟨1, 1, 0, 1, [sampleGame 1 100], 0⟩).started_at ∧
      ((curGame s).started_at = (curGame ⟨1, 1, 0, 1, [sampleGame 1 100], 0⟩).started_at →
        0 ≤ k) := by
  have h := c9_tie_break_earliest_profile
    [some ⟨1, 1, 0, 1, [sampleGame 1 100], 0⟩,
     some ⟨2, 1, 0, 1, [sampleGame 2 100], 0⟩]
    (by decide) 0 ⟨1, 1, 0, 1, [sampleGame 1 100], 0⟩ rfl
  exact ⟨by decide, h.1, h.2.2⟩

/-! ## Pagination model and merge invariants (C1, C7) -/

/-- Newest-first: `started_at` non-increasing along the list. -/
def sortedByTime (l : List Game) : Prop :=
  l.Pairwise (fun a b => b.started_at ≤ a.started_at)

instance : DecidablePred sortedByTime := fun l => by
  unfold sortedByTime
  infer_instance

/-- The concatenation of a profile's pages: its full game list. -/
def fullGames (pgs : List (List Game)) : List Game := pgs.flatten

/-- The number of games on the pages strictly before 1-based page `n + 1`,
i.e. the server `offset` of page `n + 1`. -/
def pagesOffset (pgs : List (List Game)) (n : Nat) : Nat :=
  ((pgs.take n).map List.length).sum

/-- The fetch collaborator serves profile `p` (under the given filters) from
the page list `pgs`: page `n + 1` exists for `n < pgs.length` and carries
the correct `offset` and `total_count`; at least one page exists; and no
page is empty unless the profile has no games at all (`pgs = [[]]`), which
matches a paginated server that only emits full-or-final pages. -/
def EnvProvides (env : FetchEnv) (opp since : Option Int) (p : Int)
    (pgs : List (List Game)) : Prop :=
  pgs ≠ [] ∧
  (∀ pg ∈ pgs, pg = [] → pgs = [[]]) ∧
  ∀ n, n < pgs.length →
    env p opp since (n + 1) =
      some ⟨pgs.getD n [], pagesOffset pgs n, (fullGames pgs).length, n + 1⟩

instance (env : FetchEnv) (opp since : Option Int) (p : Int)
    (pgs : List (List Game)) : Decidable (EnvProvides env opp since p pgs) := by
  unfold EnvProvides
  have : Decidable (∀ n, n < pgs.length →
      env p opp since (n + 1) =
        some ⟨pgs.getD n [], pagesOffset pgs n, (fullGames pgs).length, n + 1⟩) :=
    Nat.decidableBallLT pgs.length _
  infer_instance

/-- The cursor state at position `i` has consumed `c` games of its profile's
full list: it holds some 1-based page `n + 1` of the page list, with the
server fields consistent and `c = offset + index`. -/
def StateOK (pids : List Int) (pagess : List (List (List Game))) (i : Nat)
    (s : FetchState) (c : Nat) : Prop :=
  ∃ n, n < (pagess.getD i []).length ∧ s.page = n + 1 ∧
    s.games = (pagess.getD i []).getD n [] ∧
    s.offset = pagesOffset (pagess.getD i []) n ∧
    s.total_count = (fullGames (pagess.getD i [])).length ∧
    s.index ≤ s.games.length ∧
    c = s.offset + s.index ∧
    s.profile_id = pids.getD i 0

/-- Every fetch of a page `m ≥ 2` recorded in the trace happened only after
the merge had yielded precisely the games of pages `1..m-1` of that stream
(page `m-1` fully consumed), and only while the stream was not exhausted. -/
def FetchJust (pagess : List (List (List Game))) (tr : List Event) : Prop :=
  ∀ n i p m, tr[n]? = some (Event.fetch i p m) → 2 ≤ m →
    yieldsOf (tr.take n) i = ((pagess.getD i []).take (m - 1)).flatten ∧
    ((pagess.getD i []).take (m - 1)).flatten.length <
      (fullGames (pagess.getD i [])).length

/-! ### Arithmetic of page offsets -/

theorem sum_take_le (l : List Nat) (n : Nat) : (l.take n).sum ≤ l.sum := by
  induction l generalizing n with
  | nil => simp
  | cons a t ih =>
    cases n with
    | zero => simp
    | succ n =>
      simp only [List.take_succ_cons, List.sum_cons]
      exact Nat.add_le_add_left (ih n) a

theorem pagesOffset_zero (pgs : List (List Game)) : pagesOffset pgs 0 = 0 := rfl

theorem pagesOffset_succ (pgs : List (List Game)) {n : Nat}
    (h : n < pgs.length) :
    pagesOffset pgs (n + 1) = pagesOffset pgs n + (pgs.getD n []).length := by
  unfold pagesOffset
  rw [List.map_take, List.map_take, List.sum_take_succ _ _ (by simpa using h)]
  rw [List.getD_eq_getElem pgs [] h]
  simp

theorem pagesOffset_length (pgs : List (List Game)) :
    pagesOffset pgs pgs.length = (fullGames pgs).length := by
  unfold pagesOffset fullGames
  rw [List.take_length, List.length_flatten]

theorem pagesOffset_le_total (pgs : List (List Game)) (n : Nat) :
    pagesOffset pgs n ≤ (fullGames pgs).length := by
  unfold pagesOffset fullGames
  rw [List.map_take, List.length_flatten]
  exact sum_take_le _ n

theorem pagesOffset_mono (pgs : List (List Game)) {a b : Nat} (h : a ≤ b) :
    pagesOffset pgs a ≤ pagesOffset pgs b := by
  unfold pagesOffset
  rw [List.map_take, List.map_take]
  rw [show List.take a (pgs.map List.length) =
    List.take a (List.take b (pgs.map List.length)) by
      rw [List.take_take, Nat.min_eq_left h]]
  exact sum_take_le _ a

theorem fullGames_take (pgs : List (List Game)) (n : Nat) :
    (fullGames pgs).take (pagesOffset pgs n) = fullGames (pgs.take n) := by
  unfold fullGames pagesOffset
  rw [List.map_take]
  exact List.take_sum_flatten pgs n

theorem fullGames_drop (pgs : List (List Game)) (n : Nat) :
    (fullGames pgs).drop (pagesOffset pgs n) = fullGames (pgs.drop n) := by
  unfold fullGames pagesOffset
  rw [List.map_take]
  exact List.drop_sum_flatten pgs n

theorem take_pages_length (pgs : List (List Game)) (n : Nat) :
    (fullGames (pgs.take n)).length = pagesOffset pgs n := by
  unfold fullGames pagesOffset
  rw [List.length_flatten, List.map_take]

/-! ### Trace bookkeeping -/

theorem yieldsOf_append (a b : List Event) (i : Nat) :
    yieldsOf (a ++ b) i = yieldsOf a i ++ yieldsOf b i :=
  List.filterMap_append a b _

theorem allYields_append (a b : List Event) :
    allYields (a ++ b) = allYields a ++ allYields b :=
  List.filterMap_append a b _

theorem yieldsOf_all_fetch {evs : List Event}
    (h : ∀ e ∈ evs, ∃ pos p m, e = Event.fetch pos p m) (i : Nat) :
    yieldsOf evs i = [] := by
  rw [yieldsOf, List.filterMap_eq_nil_iff]
  intro e he
  obtain ⟨pos, p, m, rfl⟩ := h e he
  rfl

theorem allYields_all_fetch {evs : List Event}
    (h : ∀ e ∈ evs, ∃ pos p m, e = Event.fetch pos p m) :
    allYields evs = [] := by
  rw [allYields, List.filterMap_eq_nil_iff]
  intro e he
  obtain ⟨pos, p, m, rfl⟩ := h e he
  rfl

theorem yieldsOf_yld (j : Nat) (g : Game) (i : Nat) :
    yieldsOf [Event.yld j g] i = if j = i then [g] else [] := by
  unfold yieldsOf
  by_cases h : j = i
  · simp [List.filterMap, h]
  · simp [List.filterMap, h]

theorem allYields_yld (j : Nat) (g : Game) :
    allYields [Event.yld j g] = [g] := rfl

theorem fetchJust_append_fetches {pagess : List (List (List Game))}
    {tr evs : List Event} (h1 : FetchJust pagess tr)
    (h2 : ∀ e ∈ evs, ∃ pos p m, e = Event.fetch pos p m ∧ 2 ≤ m ∧
      yieldsOf tr pos = ((pagess.getD pos []).take (m - 1)).flatten ∧
      ((pagess.getD pos []).take (m - 1)).flatten.length <
        (fullGames (pagess.getD pos [])).length) :
    FetchJust pagess (tr ++ evs) := by
  intro n i p m hn hm
  by_cases hlen : n < tr.length
  · rw [List.getElem?_append, if_pos hlen] at hn
    rw [List.take_append_eq_append_take,
      Nat.sub_eq_zero_of_le (le_of_lt hlen), List.take_zero, List.append_nil]
    exact h1 n i p m hn hm
  · rw [List.getElem?_append_right (by omega)] at hn
    have hmem : Event.fetch i p m ∈ evs := List.getElem?_mem hn
    obtain ⟨pos, p', m', he, _, hy, hl⟩ := h2 _ hmem
    cases he
    have hev0 : yieldsOf (List.take (n - tr.length) evs) i = [] :=
      yieldsOf_all_fetch (fun e hev => by
        obtain ⟨pos₀, p₀, m₀, he₀, _⟩ := h2 e (List.take_subset _ _ hev)
        exact ⟨pos₀, p₀, m₀, he₀⟩) i
    rw [List.take_append_eq_append_take,
      List.take_of_length_le (by omega), yieldsOf_append, hev0,
      List.append_nil]
    exact ⟨hy, hl⟩

theorem fetchJust_append_yld {pagess : List (List (List Game))}
    {tr : List Event} (h1 : FetchJust pagess tr) (j : Nat) (g : Game) :
    FetchJust pagess (tr ++ [Event.yld j g]) := by
  intro n i p m hn hm
  by_cases hlen : n < tr.length
  · rw [List.getElem?_append, if_pos hlen] at hn
    rw [List.take_append_eq_append_take,
      Nat.sub_eq_zero_of_le (le_of_lt hlen), List.take_zero, List.append_nil]
    exact h1 n i p m hn hm
  · rw [List.getElem?_append_right (by omega)] at hn
    have := List.getElem?_mem hn
    simp at this

/-! ### Consequences of the state invariant -/

theorem StateOK_c_le {pids : List Int} {pagess : List (List (List Game))}
    {i : Nat} {s : FetchState} {c : Nat} (h : StateOK pids pagess i s c) :
    c ≤ (fullGames (pagess.getD i [])).length := by
  obtain ⟨n, hn, hpage, hgames, hoff, htot, hidx, hc, hpid⟩ := h
  have h1 : c ≤ pagesOffset (pagess.getD i []) (n + 1) := by
    rw [pagesOffset_succ _ hn]
    rw [hgames] at hidx
    omega
  exact le_trans h1 (pagesOffset_le_total _ _)

theorem StateOK_drop_eq {pids : List Int} {pagess : List (List (List Game))}
    {i : Nat} {s : FetchState} {c : Nat} (h : StateOK pids pagess i s c) :
    ∃ n, n < (pagess.getD i []).length ∧ s.page = n + 1 ∧
      (fullGames (pagess.getD i [])).drop c =
        s.games.drop s.index ++ fullGames ((pagess.getD i []).drop (n + 1)) := by
  obtain ⟨n, hn, hpage, hgames, hoff, htot, hidx, hc, hpid⟩ := h
  refine ⟨n, hn, hpage, ?_⟩
  rw [hc, hoff, ← List.drop_drop, fullGames_drop,
    show (pagess.getD i []).drop n =
      (pagess.getD i []).getD n [] :: (pagess.getD i []).drop (n + 1) by
        rw [List.getD_eq_getElem _ [] hn]
        exact List.drop_eq_getElem_cons hn]
  show (((pagess.getD i []).getD n [] :: _).flatten).drop s.index = _
  rw [List.flatten_cons, List.drop_append_of_le_length (by rw [← hgames]; exact hidx),
    ← hgames]
  rfl

theorem StateOK_rem_cons {pids : List Int} {pagess : List (List (List Game))}
    {i : Nat} {s : FetchState} {c : Nat} (h : StateOK pids pagess i s c)
    (ha : s.index < s.games.length) :
    c < (fullGames (pagess.getD i [])).length ∧
    (fullGames (pagess.getD i [])).drop c =
      curGame s :: (fullGames (pagess.getD i [])).drop (c + 1) := by
  obtain ⟨n, hn, hpage, hdrop⟩ := StateOK_drop_eq h
  have hcons : s.games.drop s.index = s.games[s.index] :: s.games.drop (s.index + 1) :=
    List.drop_eq_getElem_cons ha
  have hcur : curGame s = s.games[s.index] := List.getD_eq_getElem _ default ha
  have hdrop' : (fullGames (pagess.getD i [])).drop c =
      curGame s :: (s.games.drop (s.index + 1) ++
        fullGames ((pagess.getD i []).drop (n + 1))) := by
    rw [hdrop, hcons, hcur]
    rfl
  have hlt : c < (fullGames (pagess.getD i [])).length := by
    by_contra hge
    have : (fullGames (pagess.getD i [])).drop c = [] :=
      List.drop_eq_nil_of_le (by omega)
    rw [hdrop'] at this
    cases this
  refine ⟨hlt, ?_⟩
  rw [hdrop']
  congr 1
  have : (fullGames (pagess.getD i [])).drop (c + 1) =
      ((fullGames (pagess.getD i [])).drop c).drop 1 := by
    rw [List.drop_drop]
  rw [this, hdrop']
  rfl

theorem StateOK_consumed {pids : List Int} {pagess : List (List (List Game))}
    {i : Nat} {s : FetchState} {c : Nat} (h : StateOK pids pagess i s c)
    (hfull : s.games.length ≤ s.index) :
    ∃ n, n < (pagess.getD i []).length ∧ s.page = n + 1 ∧
      c = pagesOffset (pagess.getD i []) (n + 1) := by
  obtain ⟨n, hn, hpage, hgames, hoff, htot, hidx, hc, hpid⟩ := h
  refine ⟨n, hn, hpage, ?_⟩
  have hix : s.index = s.games.length := by omega
  rw [pagesOffset_succ _ hn, hc, hoff, hix, hgames]

/-! ### The refill pass -/

theorem refill_spec (env : FetchEnv) (opp since : Option Int) (pids : List Int)
    (pagess : List (List (List Game)))
    (henv : ∀ i, i < pids.length →
      EnvProvides env opp since (pids.getD i 0) (pagess.getD i [])) :
    ∀ (states : List (Option FetchState)) (pos : Nat) (c : Nat → Nat),
      (∀ k, k < states.length → pos + k < pids.length) →
      (∀ k, k < states.length → ∃ s, states.getD k none = some s ∧
        StateOK pids pagess (pos + k) s (c (pos + k))) →
      ∃ states' evs, refill env opp since states pos = .ok (states', evs) ∧
        states'.length = states.length ∧
        (∀ k, k < states.length → ∃ s', states'.getD k none = some s' ∧
          StateOK pids pagess (pos + k) s' (c (pos + k)) ∧
          (s'.index < s'.games.length ∨
            c (pos + k) = (fullGames (pagess.getD (pos + k) [])).length)) ∧
        (∀ e ∈ evs, ∃ j m, j < pids.length ∧
          e = Event.fetch j (pids.getD j 0) m ∧ 2 ≤ m ∧
          c j = pagesOffset (pagess.getD j []) (m - 1) ∧
          c j < (fullGames (pagess.getD j [])).length) := by
  intro states
  induction states with
  | nil =>
    intro pos c hrange hinv
    refine ⟨[], [], rfl, rfl, ?_, ?_⟩
    · intro k hk
      exact absurd hk (by simp)
    · intro e he
      exact absurd he (List.not_mem_nil e)
  | cons x rest ih =>
    intro pos c hrange hinv
    obtain ⟨s, hx, hok⟩ := hinv 0 (by simp)
    have hx' : x = some s := hx
    subst hx'
    have hrange' : ∀ k, k < rest.length → (pos + 1) + k < pids.length := by
      intro k hk
      have := hrange (k + 1) (by simp; omega)
      omega
    have hinv' : ∀ k, k < rest.length → ∃ t, rest.getD k none = some t ∧
        StateOK pids pagess ((pos + 1) + k) t (c ((pos + 1) + k)) := by
      intro k hk
      have heq : (pos + 1) + k = pos + (k + 1) := by omega
      rw [heq]
      exact hinv (k + 1) (by simp; omega)
    obtain ⟨sts', evs', hrun, hlen, hready, hevs⟩ := ih (pos + 1) c hrange' hinv'
    by_cases hg : s.index ≥ s.games.length ∧ s.offset + s.index < s.total_count
    · -- the state consumed its page and is not exhausted: fetch the next page
      obtain ⟨n, hn, hpage, hcoff⟩ := StateOK_consumed hok hg.1
      have hok' := hok
      obtain ⟨n₀, hn₀, hpage₀, hgames₀, hoff₀, htot₀, hidx₀, hc₀, hpid₀⟩ := hok'
      have hclt : c (pos + 0) < (fullGames (pagess.getD (pos + 0) [])).length := by
        rw [hc₀, ← htot₀]
        exact hg.2
      have hn1 : n + 1 < (pagess.getD (pos + 0) []).length := by
        by_contra hge
        have h1 : pagesOffset (pagess.getD (pos + 0) []) ((pagess.getD (pos + 0) []).length) ≤
            pagesOffset (pagess.getD (pos + 0) []) (n + 1) :=
          pagesOffset_mono _ (by omega)
        rw [pagesOffset_length] at h1
        omega
      have henvi := henv (pos + 0) (hrange 0 (by simp))
      have hpg_ne : (pagess.getD (pos + 0) []).getD (n + 1) [] ≠ [] := by
        intro hempty
        have hmem : (pagess.getD (pos + 0) []).getD (n + 1) [] ∈ pagess.getD (pos + 0) [] := by
          rw [List.getD_eq_getElem _ [] hn1]
          exact List.getElem_mem _
        have := henvi.2.1 _ hmem hempty
        rw [this] at hn1
        simp at hn1
      have hfetch : fetchPlayerGames env s.profile_id opp since (s.page + 1) =
          some ⟨pids.getD (pos + 0) 0, n + 2,
            pagesOffset (pagess.getD (pos + 0) []) (n + 1),
            (fullGames (pagess.getD (pos + 0) [])).length,
            (pagess.getD (pos + 0) []).getD (n + 1) [], 0⟩ := by
        rw [hpid₀, hpage]
        show fetchPlayerGames env (pids.getD (pos + 0) 0) opp since ((n + 1) + 1) = _
        unfold fetchPlayerGames
        rw [henvi.2.2 (n + 1) hn1]
        rfl
      refine ⟨fetchPlayerGames env s.profile_id opp since (s.page + 1) :: sts',
        Event.fetch pos s.profile_id (s.page + 1) :: evs', ?_, ?_, ?_, ?_⟩
      · show refill env opp since (some s :: rest) pos = _
        unfold refill
        rw [if_pos hg, hrun]
      · simpa using hlen
      · intro k hk
        cases k with
        | zero =>
          refine ⟨⟨pids.getD (pos + 0) 0, n + 2,
            pagesOffset (pagess.getD (pos + 0) []) (n + 1),
            (fullGames (pagess.getD (pos + 0) [])).length,
            (pagess.getD (pos + 0) []).getD (n + 1) [], 0⟩, ?_, ?_, ?_⟩
          · show (fetchPlayerGames env s.profile_id opp since (s.page + 1) :: sts').getD 0 none = _
            rw [hfetch]
            rfl
          · exact ⟨n + 1, hn1, rfl, rfl, rfl, rfl, by simp, by rw [hcoff]; rfl, rfl⟩
          · left
            show 0 < ((pagess.getD (pos + 0) []).getD (n + 1) []).length
            rcases Nat.eq_zero_or_pos ((pagess.getD (pos + 0) []).getD (n + 1) []).length with h0 | h0
            · exact absurd (List.length_eq_zero.mp h0) hpg_ne
            · exact h0
        | succ k' =>
          have hk' : k' < rest.length := by simpa using hk
          obtain ⟨t, ht, htok, htr⟩ := hready k' hk'
          have heq : (pos + 1) + k' = pos + (k' + 1) := by omega
          rw [heq] at htok htr
          exact ⟨t, ht, htok, htr⟩
      · intro e he
        rcases List.mem_cons.mp he with he0 | he'
        · subst he0
          refine ⟨pos, n + 2, by have := hrange 0 (by simp); omega,
            ?_, by omega, ?_, ?_⟩
          · rw [hpage, hpid₀]
            rfl
          · show c pos = pagesOffset (pagess.getD pos []) (n + 2 - 1)
            show c pos = pagesOffset (pagess.getD pos []) (n + 1)
            exact hcoff
          · exact hclt
        · exact hevs e he'
    · -- state untouched
      refine ⟨some s :: sts', evs', ?_, ?_, ?_, hevs⟩
      · show refill env opp since (some s :: rest) pos = _
        unfold refill
        rw [if_neg hg, hrun]
      · simpa using hlen
      · intro k hk
        cases k with
        | zero =>
          refine ⟨s, rfl, hok, ?_⟩
          by_cases hact : s.index < s.games.length
          · exact Or.inl hact
          · right
            have hle := StateOK_c_le hok
            obtain ⟨n₀, hn₀, hpage₀, hgames₀, hoff₀, htot₀, hidx₀, hc₀, hpid₀⟩ := hok
            have hge : ¬s.offset + s.index < s.total_count := fun hlt =>
              hg ⟨by omega, hlt⟩
            rw [htot₀] at hge
            omega
        | succ k' =>
          have hk' : k' < rest.length := by simpa using hk
          obtain ⟨t, ht, htok, htr⟩ := hready k' hk'
          have heq : (pos + 1) + k' = pos + (k' + 1) := by omega
          rw [heq] at htok htr
          exact ⟨t, ht, htok, htr⟩

theorem getD_set_self {α : Type} {l : List α} {j : Nat} {a d : α}
    (h : j < l.length) : (l.set j a).getD j d = a := by
  rw [List.getD_eq_getElem?_getD, List.getElem?_set, if_pos rfl, if_pos h]
  rfl

theorem getD_set_ne {α : Type} {l : List α} {i j : Nat} {a d : α}
    (h : j ≠ i) : (l.set j a).getD i d = l.getD i d := by
  rw [List.getD_eq_getElem?_getD, List.getElem?_set, if_neg h,
    ← List.getD_eq_getElem?_getD]

/-! ### The production loop -/

theorem enumLoop_succ_done {env : FetchEnv} {opp since : Option Int}
    {fuel : Nat} {states states' : List (Option FetchState)}
    {tr evs : List Event}
    (h1 : refill env opp since states 0 = .ok (states', evs))
    (h2 : findFirst states' 0 none = .ok none) :
    enumLoop env opp since (fuel + 1) states tr = .done (tr ++ evs) := by
  simp [enumLoop, h1, h2]

theorem enumLoop_succ_yield {env : FetchEnv} {opp since : Option Int}
    {fuel : Nat} {states states' : List (Option FetchState)}
    {tr evs : List Event} {j : Nat} {s : FetchState}
    (h1 : refill env opp since states 0 = .ok (states', evs))
    (h2 : findFirst states' 0 none = .ok (some (j, s))) :
    enumLoop env opp since (fuel + 1) states tr =
      enumLoop env opp since fuel
        (states'.set j (some { s with index := s.index + 1 }))
        ((tr ++ evs) ++ [Event.yld j (curGame s)]) := by
  simp [enumLoop, h1, h2]

theorem enumLoop_spec (env : FetchEnv) (opp since : Option Int) (pids : List Int)
    (pagess : List (List (List Game)))
    (henv : ∀ i, i < pids.length →
      EnvProvides env opp since (pids.getD i 0) (pagess.getD i []))
    (hsort : ∀ i, i < pids.length →
      sortedByTime (fullGames (pagess.getD i []))) :
    ∀ (fuel : Nat) (states : List (Option FetchState)) (c : Nat → Nat)
      (tr : List Event),
      states.length = pids.length →
      (∀ i, i < states.length → ∃ s, states.getD i none = some s ∧
        StateOK pids pagess i s (c i)) →
      (∀ i, i < pids.length →
        yieldsOf tr i = (fullGames (pagess.getD i [])).take (c i)) →
      sortedByTime (allYields tr) →
      (∀ i, i < pids.length →
        ∀ g ∈ (fullGames (pagess.getD i [])).drop (c i),
        ∀ y ∈ allYields tr, g.started_at ≤ y.started_at) →
      FetchJust pagess tr →
      (∑ i ∈ Finset.range pids.length,
        ((fullGames (pagess.getD i [])).length - c i)) < fuel →
      ∃ tr', enumLoop env opp since fuel states tr = .done tr' ∧
        (∀ i, i < pids.length → yieldsOf tr' i = fullGames (pagess.getD i [])) ∧
        sortedByTime (allYields tr') ∧
        FetchJust pagess tr' := by
  intro fuel
  induction fuel with
  | zero =>
    intro states c tr _ _ _ _ _ _ hfuel
    exact absurd hfuel (by omega)
  | succ fuel ih =>
    intro states c tr hslen hsinv hy hsorted hbound hfj hfuel
    obtain ⟨states', evs, hrefill, hlen', hready0, hevs0⟩ :=
      refill_spec env opp since pids pagess henv states 0 c
        (fun k hk => by rw [hslen] at hk; omega)
        (fun k hk => by
          obtain ⟨s, h1, h2⟩ := hsinv k hk
          exact ⟨s, h1, by simpa using h2⟩)
    have hready : ∀ k, k < states.length → ∃ s', states'.getD k none = some s' ∧
        StateOK pids pagess k s' (c k) ∧
        (s'.index < s'.games.length ∨
          c k = (fullGames (pagess.getD k [])).length) := by
      intro k hk
      obtain ⟨s', h1, h2, h3⟩ := hready0 k hk
      exact ⟨s', h1, by simpa using h2, by simpa using h3⟩
    have hevs : ∀ e ∈ evs, ∃ j m, j < pids.length ∧
        e = Event.fetch j (pids.getD j 0) m ∧ 2 ≤ m ∧
        c j = pagesOffset (pagess.getD j []) (m - 1) ∧
        c j < (fullGames (pagess.getD j [])).length := hevs0
    have hevs_fetch : ∀ e ∈ evs, ∃ pos p m, e = Event.fetch pos p m := by
      intro e he
      obtain ⟨j, m, _, he', _⟩ := hevs e he
      exact ⟨j, pids.getD j 0, m, he'⟩
    have hfj₁ : FetchJust pagess (tr ++ evs) := by
      apply fetchJust_append_fetches hfj
      intro e he
      obtain ⟨j, m, hjlt, he', hm, hcoff, hclt⟩ := hevs e he
      refine ⟨j, pids.getD j 0, m, he', hm, ?_, ?_⟩
      · rw [hy j hjlt, hcoff, fullGames_take]
        rfl
      · show (fullGames ((pagess.getD j []).take (m - 1))).length < _
        rw [take_pages_length, ← hcoff]
        exact hclt
    have hy₁ : ∀ i, i < pids.length →
        yieldsOf (tr ++ evs) i = (fullGames (pagess.getD i [])).take (c i) := by
      intro i hi
      rw [yieldsOf_append, yieldsOf_all_fetch hevs_fetch, List.append_nil]
      exact hy i hi
    have hall₁ : allYields (tr ++ evs) = allYields tr := by
      rw [allYields_append, allYields_all_fetch hevs_fetch, List.append_nil]
    have hallsome : ∀ k, k < states'.length → states'.getD k none ≠ none := by
      intro k hk
      obtain ⟨s', h1, _⟩ := hready k (by omega)
      rw [h1]
      exact fun h => Option.noConfusion h
    obtain ⟨r, hff, hscan⟩ := findFirst_go_spec states' hallsome
      states'.length 0 none (by omega) (by omega)
      ⟨fun _ k s hk => by omega, fun j' t' h => by cases h⟩
    rw [List.drop_zero] at hff
    rcases r with _ | ⟨j, t⟩
    · -- all streams exhausted: the loop terminates
      refine ⟨tr ++ evs, ?_, ?_, by rw [hall₁]; exact hsorted, hfj₁⟩
      · exact enumLoop_succ_done hrefill hff
      · intro i hi
        obtain ⟨s', h1, h2, h3⟩ := hready i (by omega)
        have hna := hscan.1 rfl i s' (by omega) h1
        have hci : c i = (fullGames (pagess.getD i [])).length := by
          rcases h3 with h3 | h3
          · exact absurd h3 hna
          · exact h3
        rw [hy₁ i hi, hci, List.take_length]
    · -- a game is yielded
      obtain ⟨hjlt', hjt, hact, hmax⟩ := hscan.2 j t rfl
      have hjpids : j < pids.length := by omega
      obtain ⟨s₀, hs₀, hok₀, _⟩ := hready j (by omega)
      have hts : s₀ = t := by
        rw [hs₀] at hjt
        exact (Option.some.injEq _ _).mp hjt
      subst hts
      obtain ⟨hclt, hdropj⟩ := StateOK_rem_cons hok₀ hact
      have hgmem : curGame s₀ ∈ (fullGames (pagess.getD j [])).drop (c j) := by
        rw [hdropj]
        exact List.mem_cons_self _ _
      have hgetc : (fullGames (pagess.getD j []))[c j]? = some (curGame s₀) := by
        have h0 : ((fullGames (pagess.getD j [])).drop (c j))[0]? =
            some (curGame s₀) := by
          rw [hdropj]
          simp
        rw [List.getElem?_drop] at h0
        simpa using h0
      -- the new consumed-count function
      have hinv₂ : ∀ i, i < (states'.set j
          (some { s₀ with index := s₀.index + 1 })).length →
          ∃ s, (states'.set j (some { s₀ with index := s₀.index + 1 })).getD i none
              = some s ∧
            StateOK pids pagess i s
              (if i = j then c j + 1 else c i) := by
        intro i hi
        rw [List.length_set] at hi
        by_cases hij : i = j
        · subst hij
          refine ⟨{ s₀ with index := s₀.index + 1 }, getD_set_self (by omega), ?_⟩
          rw [if_pos rfl]
          obtain ⟨n, hn, h1, h2, h3, h4, h5, h6, h7⟩ := hok₀
          exact ⟨n, hn, h1, h2, h3, h4, by simpa using hact,
            by show c i + 1 = s₀.offset + (s₀.index + 1); omega, h7⟩
        · obtain ⟨s', h1, h2, _⟩ := hready i (by omega)
          refine ⟨s', ?_, ?_⟩
          · rw [getD_set_ne (fun h => hij h.symm)]
            exact h1
          · rw [if_neg hij]
            exact h2
      have hy₂ : ∀ i, i < pids.length →
          yieldsOf ((tr ++ evs) ++ [Event.yld j (curGame s₀)]) i =
            (fullGames (pagess.getD i [])).take
              (if i = j then c j + 1 else c i) := by
        intro i hi
        rw [yieldsOf_append, hy₁ i hi, yieldsOf_yld]
        by_cases hij : i = j
        · subst hij
          rw [if_pos rfl, if_pos rfl, List.take_succ, hgetc]
          rfl
        · rw [if_neg (fun h => hij h.symm), if_neg hij, List.append_nil]
      have hall₂ : allYields ((tr ++ evs) ++ [Event.yld j (curGame s₀)]) =
          allYields tr ++ [curGame s₀] := by
        rw [allYields_append, hall₁, allYields_yld]
      have hsorted₂ : sortedByTime
          (allYields ((tr ++ evs) ++ [Event.yld j (curGame s₀)])) := by
        rw [hall₂]
        unfold sortedByTime
        rw [List.pairwise_append]
        refine ⟨hsorted, by simp, ?_⟩
        intro a ha b hb
        rw [List.mem_singleton] at hb
        subst hb
        exact hbound j hjpids (curGame s₀) hgmem a ha
      have hpair : ∀ i, i < pids.length →
          List.Pairwise (fun a b => b.started_at ≤ a.started_at)
            ((fullGames (pagess.getD i [])).drop (c i)) := by
        intro i hi
        exact (hsort i hi).sublist (List.drop_sublist _ _)
      have hbound₂ : ∀ i, i < pids.length →
          ∀ g ∈ (fullGames (pagess.getD i [])).drop
            (if i = j then c j + 1 else c i),
          ∀ y ∈ allYields ((tr ++ evs) ++ [Event.yld j (curGame s₀)]),
            g.started_at ≤ y.started_at := by
        intro i hi g hg y hy'
        rw [hall₂, List.mem_append] at hy'
        have hgmem' : g ∈ (fullGames (pagess.getD i [])).drop (c i) := by
          by_cases hij : i = j
          · subst hij
            rw [if_pos rfl] at hg
            have : g ∈ ((fullGames (pagess.getD i [])).drop (c i)).drop 1 := by
              rw [List.drop_drop]
              exact hg
            exact List.mem_of_mem_drop this
          · rw [if_neg hij] at hg
            exact hg
        rcases hy' with hy' | hy'
        · exact hbound i hi g hgmem' y hy'
        · rw [List.mem_singleton] at hy'
          subst hy'
          by_cases hij : i = j
          · subst hij
            rw [if_pos rfl] at hg
            have hp := hpair i hi
            rw [hdropj, List.pairwise_cons] at hp
            exact hp.1 g hg
          · rw [if_neg hij] at hg
            obtain ⟨s', h1, h2, h3⟩ := hready i (by omega)
            rcases h3 with h3 | h3
            · obtain ⟨_, hdropi⟩ := StateOK_rem_cons h2 h3
              have hle1 : g.started_at ≤ (curGame s').started_at := by
                have hp := hpair i hi
                rw [hdropi, List.pairwise_cons] at hp
                rcases List.mem_cons.mp (by rw [← hdropi]; exact hg) with hgh | hgt
                · rw [hgh]
                · exact hp.1 g hgt
              have hle2 := (hmax i s' (by omega) h1 h3).1
              omega
            · rw [h3, List.drop_length] at hg
              cases hg
      have hfj₂ : FetchJust pagess ((tr ++ evs) ++ [Event.yld j (curGame s₀)]) :=
        fetchJust_append_yld hfj₁ j (curGame s₀)
      have hfuel₂ : (∑ i ∈ Finset.range pids.length,
          ((fullGames (pagess.getD i [])).length -
            (if i = j then c j + 1 else c i))) < fuel := by
        have hjr : j ∈ Finset.range pids.length := Finset.mem_range.mpr hjpids
        have hsplit1 : ∑ i ∈ Finset.range pids.length,
            ((fullGames (pagess.getD i [])).length - c i) =
            ((fullGames (pagess.getD j [])).length - c j) +
            ∑ i ∈ (Finset.range pids.length).erase j,
              ((fullGames (pagess.getD i [])).length - c i) :=
          (Finset.add_sum_erase _
            (fun i => (fullGames (pagess.getD i [])).length - c i) hjr).symm
        have hsplit2 : ∑ i ∈ Finset.range pids.length,
            ((fullGames (pagess.getD i [])).length -
              (if i = j then c j + 1 else c i)) =
            ((fullGames (pagess.getD j [])).length -
              (if j = j then c j + 1 else c j)) +
            ∑ i ∈ (Finset.range pids.length).erase j,
              ((fullGames (pagess.getD i [])).length -
                (if i = j then c j + 1 else c i)) :=
          (Finset.add_sum_erase _
            (fun i => (fullGames (pagess.getD i [])).length -
              (if i = j then c j + 1 else c i)) hjr).symm
        rw [if_pos rfl] at hsplit2
        have h3 : ∑ i ∈ (Finset.range pids.length).erase j,
            ((fullGames (pagess.getD i [])).length -
              (if i = j then c j + 1 else c i)) =
            ∑ i ∈ (Finset.range pids.length).erase j,
              ((fullGames (pagess.getD i [])).length - c i) := by
          refine Finset.sum_congr rfl ?_
          intro x hx
          show (fullGames (pagess.getD x [])).length -
              (if x = j then c j + 1 else c x) =
            (fullGames (pagess.getD x [])).length - c x
          rw [if_neg (Finset.ne_of_mem_erase hx)]
        omega
      obtain ⟨tr', htr', hy', hsorted', hfj'⟩ := ih
        (states'.set j (some { s₀ with index := s₀.index + 1 }))
        (fun i => if i = j then c j + 1 else c i)
        ((tr ++ evs) ++ [Event.yld j (curGame s₀)])
        (by rw [List.length_set]; omega)
        hinv₂ hy₂ hsorted₂ hbound₂ hfj₂ hfuel₂
      refine ⟨tr', ?_, hy', hsorted', hfj'⟩
      rw [enumLoop_succ_yield hrefill hff]
      exact htr'

/-- A full run of `enumPlayerGames` on valid integer profile ids against a
consistent paginated environment: it terminates with a trace whose yields
are globally sorted newest-first, reproduce each profile's full list, and
whose page fetches are all demand-justified. -/
theorem enumPlayerGames_run (env : FetchEnv) (opp : Option JVal)
    (since : Option Int) (pids : List Int)
    (pagess : List (List (List Game))) (fuel : Nat)
    (hnotbad : ¬badOpp opp)
    (hplen : pagess.length = pids.length)
    (henv : ∀ i, i < pids.length →
      EnvProvides env (effOpp opp) (effSince since) (pids.getD i 0)
        (pagess.getD i []))
    (hsort : ∀ i, i < pids.length →
      sortedByTime (fullGames (pagess.getD i [])))
    (hfuel : (∑ i ∈ Finset.range pids.length,
      (fullGames (pagess.getD i [])).length) < fuel) :
    ∃ tr, enumPlayerGames env (pids.map JVal.jnum) opp since fuel =
        EnumResult.done tr ∧
      (∀ i, i < pids.length → yieldsOf tr i = fullGames (pagess.getD i [])) ∧
      sortedByTime (allYields tr) ∧
      FetchJust pagess tr := by
  have hfil : ((pids.map JVal.jnum).filter (fun p => ¬p.isInteger)).length = 0 := by
    rw [List.length_eq_zero, List.filter_eq_nil_iff]
    intro a ha
    obtain ⟨x, _, rfl⟩ := List.mem_map.mp ha
    simp [JVal.isInteger]
  have hpids : (pids.map JVal.jnum).map JVal.toInt = pids := by
    rw [List.map_map]
    exact List.map_id pids
  have hcall : enumPlayerGames env (pids.map JVal.jnum) opp since fuel =
      enumLoop env (effOpp opp) (effSince since) fuel
        (pids.map (fun p =>
          fetchPlayerGames env p (effOpp opp) (effSince since) 1))
        ((List.range pids.length).map
          (fun i => Event.fetch i (pids.getD i 0) 1)) := by
    unfold enumPlayerGames
    rw [if_neg (fun h => h hfil), if_neg hnotbad]
    simp only [hpids]
  have htr0_fetch : ∀ e ∈ (List.range pids.length).map
      (fun i => Event.fetch i (pids.getD i 0) 1),
      ∃ pos p m, e = Event.fetch pos p m := by
    intro e he
    obtain ⟨i, _, rfl⟩ := List.mem_map.mp he
    exact ⟨i, pids.getD i 0, 1, rfl⟩
  obtain ⟨tr, h1, h2, h3, h4⟩ := enumLoop_spec env (effOpp opp)
    (effSince since) pids pagess henv hsort fuel
    (pids.map (fun p => fetchPlayerGames env p (effOpp opp) (effSince since) 1))
    (fun _ => 0)
    ((List.range pids.length).map (fun i => Event.fetch i (pids.getD i 0) 1))
    (by rw [List.length_map])
    (by
      intro i hi
      rw [List.length_map] at hi
      have hgd : (pids.map (fun p =>
          fetchPlayerGames env p (effOpp opp) (effSince since) 1)).getD i none =
          fetchPlayerGames env pids[i] (effOpp opp) (effSince since) 1 := by
        rw [List.getD_eq_getElem _ _ (by rw [List.length_map]; exact hi)]
        exact List.getElem_map _
      have henvi := henv i hi
      have hlen0 : 0 < (pagess.getD i []).length := by
        rcases h : pagess.getD i [] with _ | ⟨pg, rest⟩
        · exact absurd h henvi.1
        · simp
      have hfe : fetchPlayerGames env pids[i] (effOpp opp) (effSince since) 1 =
          some ⟨pids.getD i 0, 1, 0,
            (fullGames (pagess.getD i [])).length,
            (pagess.getD i []).getD 0 [], 0⟩ := by
        rw [show pids[i] = pids.getD i 0 from
          (List.getD_eq_getElem pids 0 hi).symm]
        unfold fetchPlayerGames
        rw [henvi.2.2 0 hlen0]
        rfl
      exact ⟨⟨pids.getD i 0, 1, 0, (fullGames (pagess.getD i [])).length,
        (pagess.getD i []).getD 0 [], 0⟩, by rw [hgd, hfe], 0, hlen0,
        rfl, rfl, rfl, rfl, by simp, rfl, rfl⟩)
    (by
      intro i hi
      rw [yieldsOf_all_fetch htr0_fetch, List.take_zero])
    (by
      unfold sortedByTime
      rw [allYields_all_fetch htr0_fetch]
      exact List.Pairwise.nil)
    (by
      intro i hi g hg y hy
      rw [allYields_all_fetch htr0_fetch] at hy
      cases hy)
    (by
      intro n i p m hn hm
      rw [List.getElem?_map] at hn
      rcases hr : (List.range pids.length)[n]? with _ | k
      · rw [hr] at hn
        cases hn
      · rw [hr] at hn
        have : Event.fetch k (pids.getD k 0) 1 = Event.fetch i p m :=
          Option.some.injEq _ _ |>.mp hn
        cases this
        omega)
    (by simpa using hfuel)
  exact ⟨tr, by rw [hcall]; exact h1, h2, h3, h4⟩

/-- C1: for every family of per-profile page lists over an honest paginated
environment, with each profile's full list sorted non-increasing by
`started_at`, `enumPlayerGames` produces a sequence that is non-increasing
by `started_at` end-to-end, and is a stable k-way interleaving of the
inputs: the subsequence of the output drawn from the stream at position `i`
is exactly profile `i`'s full input list — every input game appears exactly
once, in its original per-profile relative order. -/
theorem c1_merge_sorted_stable (env : FetchEnv) (opp : Option JVal)
    (since : Option Int) (pids : List Int)
    (pagess : List (List (List Game))) (fuel : Nat)
    (hnotbad : ¬badOpp opp)
    (hplen : pagess.length = pids.length)
    (henv : ∀ i, i < pids.length →
      EnvProvides env (effOpp opp) (effSince since) (pids.getD i 0)
        (pagess.getD i []))
    (hsort : ∀ i, i < pids.length →
      sortedByTime (fullGames (pagess.getD i [])))
    (hfuel : (∑ i ∈ Finset.range pids.length,
      (fullGames (pagess.getD i [])).length) < fuel) :
    ∃ tr, enumPlayerGames env (pids.map JVal.jnum) opp since fuel =
        EnumResult.done tr ∧
      sortedByTime (allYields tr) ∧
      (∀ i, i < pids.length → yieldsOf tr i = fullGames (pagess.getD i [])) := by
  obtain ⟨tr, h1, h2, h3, _⟩ := enumPlayerGames_run env opp since pids pagess
    fuel hnotbad hplen henv hsort hfuel
  exact ⟨tr, h1, h3, h2⟩

/-- C7: during any such run, a fetch of page `N + 1` for a stream is
recorded in the trace only after every game of that stream's pages
`1..N` has been yielded by the merge (page `N`'s games fully consumed:
`index` reached `games.length`), and only while the stream is not yet
exhausted (`offset + index < total_count`, i.e. the games consumed so far
are fewer than `total_count`). -/
theorem c7_fetch_on_demand (env : FetchEnv) (opp : Option JVal)
    (since : Option Int) (pids : List Int)
    (pagess : List (List (List Game))) (fuel : Nat)
    (hnotbad : ¬badOpp opp)
    (hplen : pagess.length = pids.length)
    (henv : ∀ i, i < pids.length →
      EnvProvides env (effOpp opp) (effSince since) (pids.getD i 0)
        (pagess.getD i []))
    (hsort : ∀ i, i < pids.length →
      sortedByTime (fullGames (pagess.getD i [])))
    (hfuel : (∑ i ∈ Finset.range pids.length,
      (fullGames (pagess.getD i [])).length) < fuel) :
    ∃ tr, enumPlayerGames env (pids.map JVal.jnum) opp since fuel =
        EnumResult.done tr ∧
      FetchJust pagess tr := by
  obtain ⟨tr, h1, _, _, h4⟩ := enumPlayerGames_run env opp since pids pagess
    fuel hnotbad hplen henv hsort hfuel
  exact ⟨tr, h1, h4⟩

/-- Profile ids for the concrete paginated fixture. -/
def pidsAB : List Int := [1, 2]

/-- Two profiles' page lists: profile 1 has pages
`[[100, 80], [50]]`, profile 2 has `[[90], [60]]` (timestamps). -/
def pagesAB : List (List (List Game)) :=
  [[[sampleGame 1 100, sampleGame 1 80], [sampleGame 1 50]],
   [[sampleGame 2 90], [sampleGame 2 60]]]

/-- An honest paginated environment serving `pagesAB` with no filters. -/
def envPaged : FetchEnv := fun p o s n =>
  if o = none ∧ s = none then
    if p = 1 then
      if n = 1 then some ⟨[sampleGame 1 100, sampleGame 1 80], 0, 3, 1⟩
      else if n = 2 then some ⟨[sampleGame 1 50], 2, 3, 2⟩
      else none
    else if p = 2 then
      if n = 1 then some ⟨[sampleGame 2 90], 0, 2, 1⟩
      else if n = 2 then some ⟨[sampleGame 2 60], 1, 2, 2⟩
      else none
    else none
  else none

/-- C1 witness: the merge over the concrete two-profile paginated
environment. -/
theorem c1_witness :
    (¬badOpp (none : Option JVal)) ∧
    pagesAB.length = pidsAB.length ∧
    (∀ i, i < pidsAB.length →
      EnvProvides envPaged (effOpp none) (effSince none) (pidsAB.getD i 0)
        (pagesAB.getD i [])) ∧
    (∀ i, i < pidsAB.length → sortedByTime (fullGames (pagesAB.getD i []))) ∧
    ((∑ i ∈ Finset.range pidsAB.length,
      (fullGames (pagesAB.getD i [])).length) < 10) ∧
    (∃ tr, enumPlayerGames envPaged (pidsAB.map JVal.jnum) none none 10 =
        EnumResult.done tr ∧
      sortedByTime (allYields tr) ∧
      ∀ i, i < pidsAB.length → yieldsOf tr i = fullGames (pagesAB.getD i [])) :=
  ⟨by decide, by decide, by decide, by decide, by decide,
   c1_merge_sorted_stable envPaged none none pidsAB pagesAB 10
     (by decide) (by decide) (by decide) (by decide) (by decide)⟩

/-- C7 witness: on-demand fetching over the same concrete environment. -/
theorem c7_witness :
    (¬badOpp (none : Option JVal)) ∧
    pagesAB.length = pidsAB.length ∧
    (∀ i, i < pidsAB.length →
      EnvProvides envPaged (effOpp none) (effSince none) (pidsAB.getD i 0)
        (pagesAB.getD i [])) ∧
    (∀ i, i < pidsAB.length → sortedByTime (fullGames (pagesAB.getD i []))) ∧
    ((∑ i ∈ Finset.range pidsAB.length,
      (fullGames (pagesAB.getD i [])).length) < 12) ∧
    (∃ tr, enumPlayerGames envPaged (pidsAB.map JVal.jnum) none none 12 =
        EnumResult.done tr ∧
      FetchJust pagesAB tr) :=
  ⟨by decide, by decide, by decide, by decide, by decide,
   c7_fetch_on_demand envPaged none none pidsAB pagesAB 12
     (by decide) (by decide) (by decide) (by decide) (by decide)⟩

end Aoe4
